import Mathlib

/-!
# acx-scraper: flattening of comment trees and transactional persistence

A shallow embedding of `acx-scraper.go`.

* Go slices are lists of their elements; where the difference between a nil
  slice and an empty one is observable (`json.Marshal` renders the first as
  `null`, the second as `[]`) the slice is an `Option (List _)`, `none`
  being the nil slice.
* `int64` values are integers; no arithmetic is done on them by the program.
* The standard library (`net/http`, `encoding/json`, `database/sql` with the
  SQLite driver) is the environment of the program: requests, the JSON
  scanner and the element codecs are parameters, and the tables are lists
  of rows on which the constraints of the schemas are checked.
-/

namespace AcxScraper

/-! ## JSON values -/

/-- A JSON document as a tree.  A number keeps the text of its literal. -/
inductive JVal where
  | null
  | bool (b : Bool)
  | num (lit : String)
  | str (s : String)
  | arr (items : List JVal)
  | obj (members : List (String × JVal))

/-- The member of an object with the given key (`none` when there is none, or
when the value is not an object). -/
def JVal.member (key : String) : JVal → Option JVal
  | .obj members => (members.find? (fun kv => kv.1 == key)).map Prod.snd
  | _ => none

/-! ## Data model (`type comment struct`, `type article struct`) -/

/-- The Go struct `comment`; `Children` is a slice of comments. -/
inductive comment where
  | mk (ID PostID UserID : Int) (Date : String) (Body : Option String) (Name : String)
      (Deleted : Bool) (AncestorPath : String) (ChildrenCount : Int)
      (Children : Option (List comment))

namespace comment

def ID : comment → Int
  | mk i _ _ _ _ _ _ _ _ _ => i

def PostID : comment → Int
  | mk _ p _ _ _ _ _ _ _ _ => p

def UserID : comment → Int
  | mk _ _ u _ _ _ _ _ _ _ => u

def Date : comment → String
  | mk _ _ _ d _ _ _ _ _ _ => d

def Body : comment → Option String
  | mk _ _ _ _ b _ _ _ _ _ => b

def Name : comment → String
  | mk _ _ _ _ _ n _ _ _ _ => n

def Deleted : comment → Bool
  | mk _ _ _ _ _ _ d _ _ _ => d

def AncestorPath : comment → String
  | mk _ _ _ _ _ _ _ a _ _ => a

def ChildrenCount : comment → Int
  | mk _ _ _ _ _ _ _ _ n _ => n

def Children : comment → Option (List comment)
  | mk _ _ _ _ _ _ _ _ _ ch => ch

/-- The same comment with another `Children` slice. -/
def withChildren : comment → Option (List comment) → comment
  | mk i p u d b n del a cc _, ch => mk i p u d b n del a cc ch

end comment

/-- The elements of a slice (`range` over a nil slice runs zero times). -/
def elems {α : Type} : Option (List α) → List α
  | none => []
  | some xs => xs

/-! ## `flattenComments` -/

mutual
/-- One turn of the `for _, c := range comments` loop of `flattenComments`:
`c` is appended, then the flattening of `c.Children`. -/
def flattenNode : comment → List comment
  | .mk i p u d b n del a cc ch => .mk i p u d b n del a cc ch :: flattenComments ch
termination_by structural c => c
/-- The Go function `flattenComments`: a slice of length zero (nil or empty)
gives the empty slice, otherwise the loop runs over the elements. -/
def flattenComments : Option (List comment) → List comment
  | none => []
  | some cs => flattenRange cs
termination_by structural s => s
/-- The `range` loop of `flattenComments`: what the turns append to `output`,
in order. -/
def flattenRange : List comment → List comment
  | [] => []
  | c :: cs => flattenNode c ++ flattenRange cs
termination_by structural cs => cs
end

/-- The `range` loop of `flattenComments` with its accumulator `output`
spelled out (the recursive call is the function above). -/
def flattenLoop (output : List comment) : List comment → List comment
  | [] => output
  | c :: cs => flattenLoop ((output ++ [c]) ++ flattenComments c.Children) cs

/-! ## Positions in a forest -/

mutual
/-- Number of nodes of the tree rooted at a comment. -/
def countNode : comment → Nat
  | .mk _ _ _ _ _ _ _ _ _ ch => 1 + countNodes ch
termination_by structural c => c
/-- Number of nodes of a forest, at all depths. -/
def countNodes : Option (List comment) → Nat
  | none => 0
  | some cs => countList cs
termination_by structural s => s
/-- Number of nodes of a list of trees. -/
def countList : List comment → Nat
  | [] => 0
  | c :: cs => countNode c + countList cs
termination_by structural cs => cs
end

/-- The node at a position of a forest.  A position is the non-empty list of
the indices followed from the roots: `[i]` is the root number `i`, and
`i :: p` is the position `p` among the children of root `i`. -/
def nodeAt : Option (List comment) → List Nat → Option comment
  | _, [] => none
  | f, i :: p =>
    match (elems f)[i]? with
    | none => none
    | some c =>
      match p with
      | [] => some c
      | j :: q => nodeAt c.Children (j :: q)

/-- The node at a position relative to a comment: `[]` is the comment
itself, any other position is taken among its children. -/
def nodeUnder (c : comment) : List Nat → Option comment
  | [] => some c
  | j :: q => nodeAt c.Children (j :: q)

/-- Moves a position to the next root. -/
def shift : List Nat → List Nat
  | [] => []
  | i :: p => (i + 1) :: p

mutual
/-- Positions of the nodes of the tree rooted at a comment, relative to that
comment: the comment itself is `[]`. -/
def pathsNode : comment → List (List Nat)
  | .mk _ _ _ _ _ _ _ _ _ ch => [] :: paths ch
termination_by structural c => c
/-- All positions of a forest, a node before its children, the trees from
first to last. -/
def paths : Option (List comment) → List (List Nat)
  | none => []
  | some cs => pathsList cs
termination_by structural s => s
/-- All positions of a list of trees. -/
def pathsList : List comment → List (List Nat)
  | [] => []
  | c :: cs => (pathsNode c).map (fun p => 0 :: p) ++ (pathsList cs).map shift
termination_by structural cs => cs
end

/-- Order of positions in a pre-order traversal: an ancestor comes before its
descendants, and at the first index where two positions differ the smaller
index comes first. -/
def precedes : List Nat → List Nat → Prop
  | [], [] => False
  | [], _ :: _ => True
  | _ :: _, [] => False
  | i :: p, j :: q => i < j ∨ (i = j ∧ precedes p q)

/-- A comment with the given ID and children, the other fields zero. -/
def node (id : Int) (children : Option (List comment)) : comment :=
  .mk id 0 0 "" none "" false "" 0 children

/-- The tree of the scenario: 1 with children 2 and 3, and 4 under 3. -/
def scenarioTree : Option (List comment) :=
  some [node 1 (some [node 2 (some []), node 3 (some [node 4 none])])]

/-! ## Comment rows (`insertComments`) -/

mutual
/-- The document `json.Marshal(c)` encodes for a comment: one member per field
of the struct, in the order of the fields, under the key of its tag (or its
name when it has no tag); a nil pointer or nil slice is `null`. -/
def marshalComment : comment → JVal
  | .mk i p u d b n del a cc ch =>
    .obj [("ID", .num (toString i)), ("post_id", .num (toString p)),
      ("user_id", .num (toString u)), ("Date", .str d),
      ("Body", match b with
        | none => .null
        | some s => .str s),
      ("Name", .str n), ("Deleted", .bool del), ("ancestor_path", .str a),
      ("children_count", .num (toString cc)), ("Children", marshalSlice ch)]
termination_by structural c => c
/-- The document encoded for a slice of comments. -/
def marshalSlice : Option (List comment) → JVal
  | none => .null
  | some cs => .arr (marshalList cs)
termination_by structural s => s
/-- The documents encoded for the elements of a slice. -/
def marshalList : List comment → List JVal
  | [] => []
  | c :: cs => marshalComment c :: marshalList cs
termination_by structural cs => cs
end

/-- The call `json.Marshal(c)` of `insertComments`.  The struct has no field
that the encoder rejects, so the error branch of the caller is never taken;
the text stored is the compact encoding of the document returned here. -/
def jsonMarshal (c : comment) : Except String JVal :=
  .ok (marshalComment c)

/-- A row of the table `comments`. -/
structure commentRow where
  ID : Int
  PostID : Int
  UserID : Int
  Date : String
  Body : Option String
  Name : String
  AncestorPath : String
  ChildrenCount : Int
  OriginalJSON : JVal

/-- The typed columns of a row of `comments`, that is all but `OriginalJSON`. -/
def commentRow.typedColumns (r : commentRow) :
    Int × Int × Int × String × Option String × String × String × Int :=
  (r.ID, r.PostID, r.UserID, r.Date, r.Body, r.Name, r.AncestorPath, r.ChildrenCount)

/-- The arguments of `txStmt.Exec` for a comment, in the order of the columns
of the prepared `INSERT INTO comments`. -/
def commentArgs (c : comment) (originalJSON : JVal) : commentRow :=
  { ID := c.ID, PostID := c.PostID, UserID := c.UserID, Date := c.Date, Body := c.Body,
    Name := c.Name, AncestorPath := c.AncestorPath, ChildrenCount := c.ChildrenCount,
    OriginalJSON := originalJSON }

/-- The row `insertComments` stores for a comment. -/
def rowOfComment (c : comment) : commentRow :=
  commentArgs c (marshalComment c)

/-- One `INSERT INTO comments`: `ID INTEGER PRIMARY KEY` rejects a row whose
ID is already in the table, and the statement then changes nothing. -/
def execInsertComment (table : List commentRow) (r : commentRow) :
    Except String (List commentRow) :=
  if table.any (fun x => x.ID == r.ID) then .error "UNIQUE constraint failed: comments.ID"
  else .ok (table ++ [r])

/-- Failures of the database calls that are not per row: `none` is success. -/
structure TxFaults where
  prepareErr : Option String
  beginErr : Option String
  commitErr : Option String

/-- No failure of prepare, begin or commit. -/
def noFaults : TxFaults :=
  { prepareErr := none, beginErr := none, commitErr := none }

/-- The `for _, c := range comments` loop of `insertComments`, on the table
as the open transaction sees it and the lines written to the error stream. -/
def insertCommentsLoop :
    List comment → List commentRow × List String → List commentRow × List String
  | [], st => st
  | c :: cs, (table, stderr) =>
    match jsonMarshal c with
    | .error err => insertCommentsLoop cs (table, stderr ++ [err])
    | .ok originalJSON =>
      match execInsertComment table (commentArgs c originalJSON) with
      | .error err => insertCommentsLoop cs (table, stderr ++ [err])
      | .ok table1 => insertCommentsLoop cs (table1, stderr)

/-- What `insertComments` leaves: the error returned, the table and the
lines written to the error stream. -/
structure InsertResult where
  err : Option String
  table : List commentRow
  stderr : List String

/-- The Go function `insertComments`.  When the commit fails the rows of the
transaction are not in the table. -/
def insertComments (db : TxFaults) (table : List commentRow) (comments : List comment) :
    InsertResult :=
  match db.prepareErr with
  | some err => { err := some err, table := table, stderr := [] }
  | none =>
    match db.beginErr with
    | some err =>
      { err := some ("failed to begin transaction: " ++ err), table := table, stderr := [] }
    | none =>
      let st := insertCommentsLoop comments (table, [])
      match db.commitErr with
      | some err => { err := some err, table := table, stderr := st.2 }
      | none => { err := none, table := st.1, stderr := st.2 }

/-- The insert of the comment at index `n` of a batch collides: its ID is in
the table before the batch, or is the ID of an earlier comment of the batch. -/
def collides (table : List commentRow) (comments : List comment) (n : Nat) (c : comment) :
    Bool :=
  decide (c.ID ∈ table.map commentRow.ID) || decide (c.ID ∈ (comments.take n).map comment.ID)

/-- The comments of a batch whose insert goes through, `seen` being the IDs
in the table. -/
def accepted : List Int → List comment → List comment
  | _, [] => []
  | seen, c :: cs =>
    if c.ID ∈ seen then accepted seen cs else c :: accepted (seen ++ [c.ID]) cs

/-- A table holding the comment 1, and a batch whose first and third
comments collide (with the table, and with the second of the batch). -/
def batchTable : List commentRow :=
  [rowOfComment (node 1 none)]

/-- The batch of the example: IDs 1, 2, 2, 3. -/
def batch : List comment :=
  [node 1 none, node 2 none, node 2 (some []), node 3 none]

/-- A comment with one reply. -/
def parentComment : comment :=
  node 1 (some [node 2 none])

/-! ## Articles (`getArticles`) -/

/-- The Go struct `article`. -/
structure article where
  ID : Int
  PublicationID : Int
  Title : String
  SocialTitle : String
  Slug : String
  PostDate : String
  Audience : String
  WriteCommentPermissions : String
  CanonicalURL : String
  CoverImage : String
  Description : String
  WordCount : Int
  CommentCount : Int
  ChildCommentCount : Int

/-- A row of the table `articles`: the columns of `articlesSchema`, and the
column `BodyHTML` that the `UPDATE` of `getBodies` sets (SQL NULL is `none`). -/
structure articleRow where
  ID : Int
  PublicationID : Int
  Title : String
  SocialTitle : String
  Slug : String
  PostDate : String
  Audience : String
  WriteCommentPermissions : String
  CanonicalURL : String
  CoverImage : String
  Description : String
  WordCount : Int
  CommentCount : Int
  ChildCommentCount : Int
  OriginalJSON : String
  BodyHTML : Option String

/-- The arguments of `txStmt.Exec` in `getArticles`, in the order of the
columns of the prepared `INSERT INTO articles`; `BodyHTML` is not among
them and stays NULL. -/
def articleArgs (a : article) (firstArticleAsString : String) : articleRow :=
  { ID := a.ID, PublicationID := a.PublicationID, Title := a.Title,
    SocialTitle := a.SocialTitle, Slug := a.Slug, PostDate := a.PostDate,
    Audience := a.Audience, WriteCommentPermissions := a.WriteCommentPermissions,
    CanonicalURL := a.CanonicalURL, CoverImage := a.CoverImage,
    Description := a.Description, WordCount := a.WordCount, CommentCount := a.CommentCount,
    ChildCommentCount := a.ChildCommentCount, OriginalJSON := firstArticleAsString,
    BodyHTML := none }

/-- One `INSERT INTO articles`: `ID INTEGER PRIMARY KEY` and
`Slug TEXT UNIQUE` reject a row whose ID or whose slug is already in the
table, and the statement then changes nothing. -/
def execInsertArticle (table : List articleRow) (r : articleRow) :
    Except String (List articleRow) :=
  if table.any (fun x => x.ID == r.ID) then .error "UNIQUE constraint failed: articles.ID"
  else if table.any (fun x => x.Slug == r.Slug) then
    .error "UNIQUE constraint failed: articles.Slug"
  else .ok (table ++ [r])

/-- The constant `noArticles`. -/
def noArticles : String := "[]"

/-- The URL `fmt.Sprintf(baseURL, offset)`. -/
def listingURL (offset : Nat) : String :=
  "https://www.astralcodexten.com/api/v1/archive?sort=new&search=&offset=" ++ toString offset
    ++ "&limit=12"

/-- The environment of `getArticles`.

* `get offset` is `http.Get` on the listing URL of that offset followed by
  `io.ReadAll`: the body, or the error of either call.
* `scan` is the JSON scanner of `encoding/json`: the document a text
  encodes, `none` when the text is not valid JSON.
* `decodeArticle` decodes one element of the array into the struct
  `article`, `marshal` is `json.Marshal` on a decoded generic value.
* `prepareErr`, `beginErr`, `commitErr` give the failure, if any, of
  `db.Prepare`, `db.Begin` and `tx.Commit` for the page of an offset. -/
structure ListerEnv where
  get : Nat → Except String String
  scan : String → Option JVal
  decodeArticle : JVal → Except String article
  marshal : JVal → Except String String
  schemaErr : Option String
  prepareErr : Nat → Option String
  beginErr : Nat → Option String
  commitErr : Nat → Option String

/-- Decoding of the items of an array, in order; the first item that fails
to decode gives the error. -/
def decodeItems {α : Type} (decodeItem : JVal → Except String α) :
    List JVal → Except String (List α)
  | [] => .ok []
  | v :: rest =>
    match decodeItem v with
    | .error err => .error err
    | .ok a =>
      match decodeItems decodeItem rest with
      | .error err => .error err
      | .ok as => .ok (a :: as)

/-- Decoding of a JSON text into a slice, as `json.Unmarshal(body, &slice)`
does: the text must be valid; `null` leaves the slice nil; an array gives
one element per item, and the first item that fails to decode is the error
returned; any other document is a type error. -/
def unmarshalSlice {α : Type} (scan : String → Option JVal)
    (decodeItem : JVal → Except String α) (body : String) : Except String (List α) :=
  match scan body with
  | none => .error "invalid character"
  | some .null => .ok []
  | some (.arr items) => decodeItems decodeItem items
  | some _ => .error "json: cannot unmarshal into Go value of slice type"

/-- The call `json.Unmarshal(body, &articles)`. -/
def unmarshalArticles (env : ListerEnv) (body : String) : Except String (List article) :=
  unmarshalSlice env.scan env.decodeArticle body

/-- The call `json.Unmarshal(body, &articlesJSON)`: an item of any shape
decodes into `interface{}`. -/
def unmarshalGeneric (env : ListerEnv) (body : String) : Except String (List JVal) :=
  unmarshalSlice env.scan (fun v => .ok v) body

/-- How a run ends: normally, by `log.Fatalf`, by a run-time panic, or not
within the number of turns allowed. -/
inductive Outcome (σ : Type) where
  | done (s : σ)
  | fatal (msg : String)
  | panic (msg : String)
  | outOfFuel

/-- How the rows of one page end: all executed, `log.Fatalf`, or a panic. -/
inductive PageResult where
  | done (table : List articleRow)
  | fatal (msg : String)
  | panic (msg : String)

/-- The `for i, article := range articles` loop of `getArticles`, on the
table as the open transaction sees it.  The result of `txStmt.Exec` is
dropped: a rejected row leaves the table as it is and nothing is written. -/
def insertPage (env : ListerEnv) (articlesJSON : List JVal) :
    List article → Nat → List articleRow → PageResult
  | [], _, table => .done table
  | a :: rest, i, table =>
    match articlesJSON[i]? with
    | none => .panic "index out of range"
    | some v =>
      match env.marshal v with
      | .error err => .fatal ("Failed to marshal article " ++ toString i ++ ": " ++ err)
      | .ok firstArticleAsString =>
        match execInsertArticle table (articleArgs a firstArticleAsString) with
        | .error _ => insertPage env articlesJSON rest (i + 1) table
        | .ok table1 => insertPage env articlesJSON rest (i + 1) table1

/-- What `getArticles` has done so far: the table `articles`, the offsets
requested, the lines printed and the lines written to the error stream. -/
structure ListerState where
  table : List articleRow
  requests : List Nat
  stdout : List String
  stderr : List String

/-- How one turn of the page loop ends. -/
inductive Turn where
  | stop (s : ListerState)
  | next (s : ListerState)
  | fatal (msg : String)
  | panic (msg : String)

/-- One turn of the `for` loop of `getArticles` at an offset. -/
def pageTurn (env : ListerEnv) (offset : Nat) (s : ListerState) : Turn :=
  let s1 : ListerState :=
    { s with stdout := s.stdout ++ [listingURL offset], requests := s.requests ++ [offset] }
  match env.get offset with
  | .error err => .fatal ("Failed to get: " ++ err)
  | .ok body =>
    if body = noArticles then .stop s1
    else
      match unmarshalArticles env body with
      | .error err => .fatal ("Failed to unmarshal body into struct: " ++ err)
      | .ok articles =>
        match unmarshalGeneric env body with
        | .error err => .fatal ("Failed to unmarshal body: " ++ err)
        | .ok articlesJSON =>
          match env.prepareErr offset with
          | some err => .fatal ("Failed to prepare statement: " ++ err)
          | none =>
            match env.beginErr offset with
            | some err => .fatal ("Failed to begin transaction: " ++ err)
            | none =>
              match insertPage env articlesJSON articles 0 s1.table with
              | .fatal msg => .fatal msg
              | .panic msg => .panic msg
              | .done table1 =>
                match env.commitErr offset with
                | some err => .fatal ("Failed to commit statement: " ++ err)
                | none => .next { s1 with table := table1 }

/-- The `for` loop of `getArticles`, for at most `fuel` turns; the offset of
the following turn is `offset + 12`. -/
def pageLoop (env : ListerEnv) : Nat → Nat → ListerState → Outcome ListerState
  | 0, _, _ => .outOfFuel
  | fuel + 1, offset, s =>
    match pageTurn env offset s with
    | .stop s1 => .done s1
    | .fatal msg => .fatal msg
    | .panic msg => .panic msg
    | .next s1 => pageLoop env fuel (offset + 12) s1

/-- The state `getArticles` starts the page loop in. -/
def startState (table : List articleRow) : ListerState :=
  { table := table, requests := [], stdout := [], stderr := [] }

/-- The Go function `getArticles` on a database whose table `articles` holds
`table` (empty when the file is new): the schema is created if absent, the
pages are walked from offset 0, and the count of `SELECT COUNT(ID)` is
printed. -/
def getArticles (env : ListerEnv) (fuel : Nat) (table : List articleRow) :
    Outcome ListerState :=
  match env.schemaErr with
  | some err => .fatal ("Failed to create \x27articles\x27 table: " ++ err)
  | none =>
    match pageLoop env fuel 0 (startState table) with
    | .done s =>
      .done { s with stdout := s.stdout ++ [toString s.table.length ++ " articles found"] }
    | .fatal msg => .fatal msg
    | .panic msg => .panic msg
    | .outOfFuel => .outOfFuel

/-- The table after the rows of a page have been executed in order, a
rejected row leaving it as it is. -/
def insertAll (table : List articleRow) (rows : List articleRow) : List articleRow :=
  rows.foldl (fun t r =>
    match execInsertArticle t r with
    | .ok t1 => t1
    | .error _ => t) table

/-! ## Bodies (`getBodies`) -/

/-- The URL `fmt.Sprintf(".../api/v1/posts/%s", articleSlug)`. -/
def detailURL (articleSlug : String) : String :=
  "https://www.astralcodexten.com/api/v1/posts/" ++ articleSlug

/-- The environment of `getBodies`.

* `query table` is `SELECT Slug FROM articles` with the `rows.Next` loop on
  a table holding `table`: the slugs in the order the database returns them,
  or the failure of the query or of a scan.  The statement has no
  `ORDER BY`, so the order is the choice of the database (SQLite reads the
  slugs from the unique index on `Slug`, not in the order of insertion).
* `get url` is `http.NewRequest`, `client.Do` and `io.ReadAll` on the URL:
  the body, or the error of the first call that fails; the three failures
  leave the turn in the same way.
* `unmarshalBodyHTML` is `json.Unmarshal` into the struct with the one
  field `body_html`.
* `updateErr slug` is the failure, if any, of the `UPDATE` for that slug
  (for one, a table without the column `BodyHTML`). -/
structure BodiesEnv where
  query : List articleRow → Except String (List String)
  get : String → Except String String
  unmarshalBodyHTML : String → Except String String
  updateErr : String → Option String

/-- The statement `UPDATE articles SET BodyHTML = ? WHERE Slug = ?`. -/
def updateBodyHTML (table : List articleRow) (bodyHTML articleSlug : String) :
    List articleRow :=
  table.map (fun r => if r.Slug = articleSlug then { r with BodyHTML := some bodyHTML } else r)

/-- What `getBodies` has done so far. -/
structure BodiesState where
  table : List articleRow
  stdout : List String
  stderr : List String

/-- The `for _, articleSlug := range articlesSlugs` loop of `getBodies`: a
failure is written to the error stream and the loop goes on. -/
def getBodiesLoop (env : BodiesEnv) : List String → BodiesState → BodiesState
  | [], s => s
  | articleSlug :: rest, s =>
    let url := detailURL articleSlug
    let s1 : BodiesState := { s with stdout := s.stdout ++ [url] }
    match env.get url with
    | .error err => getBodiesLoop env rest { s1 with stderr := s1.stderr ++ [err] }
    | .ok body =>
      match env.unmarshalBodyHTML body with
      | .error err => getBodiesLoop env rest { s1 with stderr := s1.stderr ++ [err] }
      | .ok bodyHTML =>
        match env.updateErr articleSlug with
        | some err => getBodiesLoop env rest { s1 with stderr := s1.stderr ++ [err] }
        | none =>
          getBodiesLoop env rest { s1 with table := updateBodyHTML s1.table bodyHTML articleSlug }

/-- The Go function `getBodies` on a database whose table `articles` holds
`table`: the slugs are read with the query, then the loop runs over them in
the order the query returned them. -/
def getBodies (env : BodiesEnv) (table : List articleRow) : Outcome BodiesState :=
  match env.query table with
  | .error err => .fatal ("Failed to get the articles IDs: " ++ err)
  | .ok articlesSlugs =>
    .done (getBodiesLoop env articlesSlugs { table := table, stdout := [], stderr := [] })

/-- The value of `body_html` fetched for a slug, when the request, the
decoding and the update all succeed; `none` when one of them fails. -/
def fetched (env : BodiesEnv) (articleSlug : String) : Option String :=
  match env.get (detailURL articleSlug) with
  | .error _ => none
  | .ok body =>
    match env.unmarshalBodyHTML body with
    | .error _ => none
    | .ok bodyHTML =>
      match env.updateErr articleSlug with
      | some _ => none
      | none => some bodyHTML

/-- The row of an article after `getBodies`: `BodyHTML` is the value fetched
for its slug when there is one, and the row is as before otherwise. -/
def withFetched (env : BodiesEnv) (r : articleRow) : articleRow :=
  match fetched env r.Slug with
  | some bodyHTML => { r with BodyHTML := some bodyHTML }
  | none => r

/-! ## Pages served to `getArticles` -/

/-- An item of a listing page: its document, the article the typed decoding
makes of it and the text its generic decoding is serialized to. -/
structure Served where
  doc : JVal
  art : article
  text : String

/-- The row `getArticles` executes for an item. -/
def rowOfServed (it : Served) : articleRow :=
  articleArgs it.art it.text

/-- A body is a listing page with the given items: it is not the literal of
`noArticles`, it is the text of the array of the documents of the items, and
each document decodes and serializes as the item says. -/
def servesPage (env : ListerEnv) (body : String) (items : List Served) : Prop :=
  body ≠ noArticles ∧
  env.scan body = some (.arr (items.map Served.doc)) ∧
  ∀ it ∈ items, env.decodeArticle it.doc = .ok it.art ∧ env.marshal it.doc = .ok it.text

/-- Prepare, begin and commit succeed for the page of an offset. -/
def txOK (env : ListerEnv) (offset : Nat) : Prop :=
  env.prepareErr offset = none ∧ env.beginErr offset = none ∧ env.commitErr offset = none

/-- The state after a turn at `offset` that left the table `table`. -/
def afterTurn (s : ListerState) (offset : Nat) (table : List articleRow) : ListerState :=
  { table := table, requests := s.requests ++ [offset],
    stdout := s.stdout ++ [listingURL offset], stderr := s.stderr }

/-! ## A mocked listing endpoint -/

/-- An article with the given ID and slug, the other fields zero. -/
def mockArticle (id : Int) (slug : String) : article :=
  { ID := id, PublicationID := 0, Title := "", SocialTitle := "", Slug := slug, PostDate := "",
    Audience := "", WriteCommentPermissions := "", CanonicalURL := "", CoverImage := "",
    Description := "", WordCount := 0, CommentCount := 0, ChildCommentCount := 0 }

/-- The document of an object with the members `id` and `slug`. -/
def mockDoc (id slug : String) : JVal :=
  .obj [("id", .num id), ("slug", .str slug)]

/-- The number written by a list of decimal digits. -/
def readDigits : List Char → Nat → Option Nat
  | [], acc => some acc
  | c :: cs, acc => if c.isDigit then readDigits cs (acc * 10 + (c.toNat - 48)) else none

/-- The typed decoding of the mock: an object with an integer `id` and a
string `slug`. -/
def mockDecode : JVal → Except String article
  | .obj [("id", .num id), ("slug", .str slug)] =>
    match id.data with
    | [] => .error "json: cannot unmarshal number into Go struct field article.ID"
    | c :: cs =>
      match readDigits (c :: cs) 0 with
      | some n => .ok (mockArticle n slug)
      | none => .error "json: cannot unmarshal number into Go struct field article.ID"
  | _ => .error "json: cannot unmarshal into Go value of type main.article"

/-- The serialization of the mock, on the documents it serves. -/
def mockMarshal : JVal → Except String String
  | .obj [("id", .num id), ("slug", .str slug)] =>
    .ok ("\x7b\"id\":" ++ id ++ ",\"slug\":\"" ++ slug ++ "\"\x7d")
  | _ => .error "json: unsupported value"

/-- The item of the mock with the given ID and slug. -/
def mockServed (n : Nat) (id slug : String) : Served :=
  { doc := mockDoc id slug, art := mockArticle n slug,
    text := "\x7b\"id\":" ++ id ++ ",\"slug\":\"" ++ slug ++ "\"\x7d" }

/-- A listing endpoint that serves the given pages, each a text and the
document it encodes, at the offsets 0, 12, 24, ... and the literal `[]`
after the last; the database calls succeed. -/
def mockLister (pages : List (String × JVal)) : ListerEnv :=
  { get := fun offset =>
      match pages[offset / 12]? with
      | some page => .ok page.1
      | none => .ok noArticles
    scan := fun body => pages.lookup body
    decodeArticle := mockDecode
    marshal := mockMarshal
    schemaErr := none
    prepareErr := fun _ => none
    beginErr := fun _ => none
    commitErr := fun _ => none }

/-- A page of two items, as text and as document. -/
def twoItemsPage : String × JVal :=
  ("[\x7b\"id\":1,\"slug\":\"a\"\x7d,\x7b\"id\":2,\"slug\":\"b\"\x7d]",
    .arr [mockDoc "1" "a", mockDoc "2" "b"])

/-- The items of the page of two items. -/
def twoItems : List Served :=
  [mockServed 1 "1" "a", mockServed 2 "2" "b"]

/-- An endpoint that serves the page of two items, then the literal. -/
def twoItemsLister : ListerEnv :=
  mockLister [twoItemsPage]

/-- An endpoint whose first page is an empty array written with a blank,
`[ ]`, followed by the literal `[]`. -/
def blankLister : ListerEnv :=
  mockLister [("[ ]", .arr [])]

/-- The articles 1 to 12 as served items. -/
def firstTwelve : List Served :=
  [mockServed 1 "1" "p1", mockServed 2 "2" "p2", mockServed 3 "3" "p3", mockServed 4 "4" "p4",
    mockServed 5 "5" "p5", mockServed 6 "6" "p6", mockServed 7 "7" "p7", mockServed 8 "8" "p8",
    mockServed 9 "9" "p9", mockServed 10 "10" "p10", mockServed 11 "11" "p11",
    mockServed 12 "12" "p12"]

/-- The page of the articles 1 to 12, as text. -/
def firstTwelveText : String :=
  "[\x7b\"id\":1,\"slug\":\"p1\"\x7d" ++
    ",\x7b\"id\":2,\"slug\":\"p2\"\x7d" ++
    ",\x7b\"id\":3,\"slug\":\"p3\"\x7d" ++
    ",\x7b\"id\":4,\"slug\":\"p4\"\x7d" ++
    ",\x7b\"id\":5,\"slug\":\"p5\"\x7d" ++
    ",\x7b\"id\":6,\"slug\":\"p6\"\x7d" ++
    ",\x7b\"id\":7,\"slug\":\"p7\"\x7d" ++
    ",\x7b\"id\":8,\"slug\":\"p8\"\x7d" ++
    ",\x7b\"id\":9,\"slug\":\"p9\"\x7d" ++
    ",\x7b\"id\":10,\"slug\":\"p10\"\x7d" ++
    ",\x7b\"id\":11,\"slug\":\"p11\"\x7d" ++
    ",\x7b\"id\":12,\"slug\":\"p12\"\x7d]"

/-- The page of the articles 1 to 12, as text and as document. -/
def firstTwelvePage : String × JVal :=
  (firstTwelveText, .arr (firstTwelve.map Served.doc))

/-- The page of the article 13 alone, as text and as document. -/
def thirteenthPage : String × JVal :=
  ("[\x7b\"id\":13,\"slug\":\"p13\"\x7d]", .arr [mockDoc "13" "p13"])

/-- An endpoint with twelve articles: one full page, then the literal. -/
def twelveLister : ListerEnv :=
  mockLister [firstTwelvePage]

/-- An endpoint with thirteen articles: a full page, a page of one, then the
literal. -/
def thirteenLister : ListerEnv :=
  mockLister [firstTwelvePage, thirteenthPage]

/-- The thirteen articles as served items. -/
def thirteen : List Served :=
  firstTwelve ++ [mockServed 13 "13" "p13"]

/-- An endpoint whose page holds four items: the second repeats the ID of
the first, the third repeats the slug of the first. -/
def clashLister : ListerEnv :=
  mockLister
    [("[\x7b\"id\":1,\"slug\":\"a\"\x7d,\x7b\"id\":1,\"slug\":\"b\"\x7d," ++
        "\x7b\"id\":2,\"slug\":\"a\"\x7d,\x7b\"id\":3,\"slug\":\"c\"\x7d]",
      .arr [mockDoc "1" "a", mockDoc "1" "b", mockDoc "2" "a", mockDoc "3" "c"])]

/-- A table of two articles, inserted with the slug `b` first and the slug
`a` second. -/
def slugTable : List articleRow :=
  [rowOfServed (mockServed 1 "1" "b"), rowOfServed (mockServed 2 "2" "a")]

/-- A detail endpoint that answers for the slug `a` and fails for any other;
the query returns the slugs in the order of the index on `Slug`. -/
def detailMock : BodiesEnv :=
  { query := fun _ => .ok ["a", "b"]
    get := fun url =>
      if url = detailURL "a" then .ok "\x7b\"body_html\":\"<p>A</p>\"\x7d"
      else .error "Get: connection refused"
    unmarshalBodyHTML := fun body =>
      if body = "\x7b\"body_html\":\"<p>A</p>\"\x7d" then .ok "<p>A</p>"
      else .error "invalid character"
    updateErr := fun _ => none }


/-! # Theorems -/

/-! ## Induction over comment trees -/

/-- Induction over a comment, its slice of children and the elements of the
slice, at once. -/
theorem comment_induction {P : comment → Prop} {Q : Option (List comment) → Prop}
    {R : List comment → Prop}
    (hmk : ∀ i p u d b n del a cc ch, Q ch → P (.mk i p u d b n del a cc ch))
    (hnone : Q none) (hsome : ∀ cs, R cs → Q (some cs))
    (hnil : R []) (hcons : ∀ c cs, P c → R cs → R (c :: cs)) :
    (∀ c, P c) ∧ (∀ s, Q s) ∧ (∀ cs, R cs) :=
  ⟨fun c => @comment.rec P Q R hmk hnone hsome hnil hcons c,
   fun s => @comment.rec_1 P Q R hmk hnone hsome hnil hcons s,
   fun cs => @comment.rec_2 P Q R hmk hnone hsome hnil hcons cs⟩

theorem flattenNode_eq (c : comment) : flattenNode c = c :: flattenComments c.Children := by
  cases c; simp [flattenNode, comment.Children]

theorem flattenLoop_eq (output cs : List comment) :
    flattenLoop output cs = output ++ flattenRange cs := by
  induction cs generalizing output with
  | nil => simp [flattenLoop, flattenRange]
  | cons c cs ih => simp [flattenLoop, flattenRange, ih, flattenNode_eq]

theorem flatten_length_all :
    (∀ c, (flattenNode c).length = countNode c) ∧
    (∀ s, (flattenComments s).length = countNodes s) ∧
    (∀ cs, (flattenRange cs).length = countList cs) := by
  apply comment_induction
  · intro i p u d b n del a cc ch h
    simp [flattenNode, countNode, h]; omega
  · simp [flattenComments, countNodes]
  · intro cs h; simpa [flattenComments, countNodes] using h
  · simp [flattenRange, countList]
  · intro c cs h1 h2; simp [flattenRange, countList, h1, h2]

theorem paths_ne_nil_all :
    (∀ _c : comment, True) ∧
    (∀ s, [] ∉ paths s) ∧
    (∀ cs, [] ∉ pathsList cs) := by
  apply comment_induction
  · intros; trivial
  · simp [paths]
  · intro cs h; simpa [paths] using h
  · simp [pathsList]
  · intro c cs _ h2
    simp only [pathsList, List.mem_append, List.mem_map, not_or, not_exists, not_and]
    refine ⟨fun p _ hp => by simp at hp, fun p hp hq => ?_⟩
    cases p with
    | nil => exact h2 hp
    | cons i q => simp [shift] at hq

theorem nodeAt_cons (f : Option (List comment)) (i : Nat) (p : List Nat) :
    nodeAt f (i :: p) = ((elems f)[i]?).bind (fun c => nodeUnder c p) := by
  cases p with
  | nil =>
    rw [nodeAt]
    cases (elems f)[i]? <;> rfl
  | cons j q =>
    rw [nodeAt]
    cases (elems f)[i]? <;> rfl

theorem nodeAt_zero (c : comment) (cs : List comment) (p : List Nat) :
    nodeAt (some (c :: cs)) (0 :: p) = nodeUnder c p := by
  rw [nodeAt_cons]
  simp [elems]

theorem nodeAt_shift (c : comment) (cs : List comment) (p : List Nat) :
    nodeAt (some (c :: cs)) (shift p) = nodeAt (some cs) p := by
  cases p with
  | nil => simp [shift, nodeAt]
  | cons i q =>
    show nodeAt (some (c :: cs)) ((i + 1) :: q) = nodeAt (some cs) (i :: q)
    rw [nodeAt_cons, nodeAt_cons]
    simp [elems]

theorem flatten_map_all :
    (∀ c, (flattenNode c).map some = (pathsNode c).map (nodeUnder c)) ∧
    (∀ s, (flattenComments s).map some = (paths s).map (nodeAt s)) ∧
    (∀ cs, (flattenRange cs).map some = (pathsList cs).map (nodeAt (some cs))) := by
  apply comment_induction
  · intro i p u d b n del a cc ch h
    simp only [flattenNode, pathsNode, List.map_cons, nodeUnder, h]
    congr 1
    apply List.map_congr_left
    intro q hq
    cases q with
    | nil => exact absurd hq (paths_ne_nil_all.2.1 ch)
    | cons j r => simp [nodeUnder, comment.Children]
  · simp [flattenComments, paths]
  · intro cs h; simpa [flattenComments, paths] using h
  · simp [flattenRange, pathsList]
  · intro c cs h1 h2
    simp only [flattenRange, pathsList, List.map_append, List.map_map, h1, h2]
    congr 1
    · apply List.map_congr_left
      intro q _
      simp [nodeAt_zero]
    · apply List.map_congr_left
      intro q _
      simp [nodeAt_shift]
theorem nodeAt_nil (f : Option (List comment)) : nodeAt f [] = none := by
  rw [nodeAt]

theorem nodeAt_succ (c : comment) (cs : List comment) (i : Nat) (q : List Nat) :
    nodeAt (some (c :: cs)) ((i + 1) :: q) = nodeAt (some cs) (i :: q) :=
  nodeAt_shift c cs (i :: q)

theorem mem_paths_all :
    (∀ c, ∀ p, p ∈ pathsNode c ↔ (nodeUnder c p).isSome = true) ∧
    (∀ s, ∀ p, p ∈ paths s ↔ (nodeAt s p).isSome = true) ∧
    (∀ cs, ∀ p, p ∈ pathsList cs ↔ (nodeAt (some cs) p).isSome = true) := by
  apply comment_induction
  · intro i p u d b n del a cc ch h q
    cases q with
    | nil => simp [pathsNode, nodeUnder]
    | cons j r =>
      simp only [pathsNode, List.mem_cons, nodeUnder, comment.Children]
      rw [← h]
      simp
  · intro p
    cases p with
    | nil => simp [paths, nodeAt_nil]
    | cons i q => simp [paths, nodeAt_cons, elems]
  · intro cs h p; simpa [paths] using h p
  · intro p
    cases p with
    | nil => simp [pathsList, nodeAt_nil]
    | cons i q => simp [pathsList, nodeAt_cons, elems]
  · intro c cs h1 h2 p
    cases p with
    | nil =>
      have := paths_ne_nil_all.2.2 (c :: cs)
      simp [this, nodeAt_nil]
    | cons i q =>
      cases i with
      | zero =>
        rw [nodeAt_zero, ← h1]
        simp only [pathsList, List.mem_append, List.mem_map]
        constructor
        · rintro (⟨r, hr, e⟩ | ⟨r, _, e⟩)
          · simp at e; exact e ▸ hr
          · cases r <;> simp [shift] at e
        · intro hq; exact Or.inl ⟨q, hq, rfl⟩
      | succ k =>
        rw [nodeAt_succ, ← h2]
        simp only [pathsList, List.mem_append, List.mem_map]
        constructor
        · rintro (⟨r, _, e⟩ | ⟨r, hr, e⟩)
          · simp at e
          · cases r with
            | nil => simp [shift] at e
            | cons j s =>
              simp [shift] at e
              obtain ⟨e1, e2⟩ := e
              subst e1 e2
              exact hr
        · intro hq; exact Or.inr ⟨k :: q, hq, rfl⟩

theorem precedes_irrefl (p : List Nat) : ¬ precedes p p := by
  induction p with
  | nil => simp [precedes]
  | cons i p ih => simp [precedes, ih]

theorem precedes_asymm (p q : List Nat) : precedes p q → ¬ precedes q p := by
  induction p generalizing q with
  | nil => cases q <;> simp [precedes]
  | cons i p ih =>
    cases q with
    | nil => simp [precedes]
    | cons j q =>
      simp only [precedes]
      rintro (h | ⟨h, h2⟩) (h3 | ⟨h3, h4⟩)
      · omega
      · omega
      · omega
      · exact ih q h2 h4

theorem precedes_append (p q : List Nat) (hq : q ≠ []) : precedes p (p ++ q) := by
  induction p with
  | nil => cases q with
    | nil => exact absurd rfl hq
    | cons j r => simp [precedes]
  | cons i p ih => simp [precedes, ih]

theorem precedes_branch (p r s : List Nat) (i j : Nat) (h : i < j) :
    precedes (p ++ i :: r) (p ++ j :: s) := by
  induction p with
  | nil => simp [precedes, h]
  | cons k p ih => simp [precedes, ih]

theorem precedes_shift (p q : List Nat) (hp : p ≠ []) (hq : q ≠ []) (h : precedes p q) :
    precedes (shift p) (shift q) := by
  cases p with
  | nil => exact absurd rfl hp
  | cons i p =>
    cases q with
    | nil => exact absurd rfl hq
    | cons j q =>
      simp only [shift, precedes] at *
      rcases h with h | ⟨h, h2⟩
      · exact Or.inl (by omega)
      · exact Or.inr ⟨by omega, h2⟩

theorem pairwise_paths_all :
    (∀ c, (pathsNode c).Pairwise precedes) ∧
    (∀ s, (paths s).Pairwise precedes) ∧
    (∀ cs, (pathsList cs).Pairwise precedes) := by
  apply comment_induction
  · intro i p u d b n del a cc ch h
    simp only [pathsNode, List.pairwise_cons]
    refine ⟨fun q hq => ?_, h⟩
    cases q with
    | nil => exact absurd hq (paths_ne_nil_all.2.1 ch)
    | cons j r => simp [precedes]
  · simp [paths]
  · intro cs h; simpa [paths] using h
  · simp [pathsList]
  · intro c cs h1 h2
    simp only [pathsList, List.pairwise_append, List.pairwise_map, List.mem_map]
    refine ⟨?_, ?_, ?_⟩
    · exact h1.imp (fun {a b} hab => by simp [precedes, hab])
    · have hne := paths_ne_nil_all.2.2 cs
      refine (List.Pairwise.and_mem.1 h2).imp ?_
      rintro a b ⟨ha, hb, hab⟩
      exact precedes_shift a b (fun e => hne (e ▸ ha)) (fun e => hne (e ▸ hb)) hab
    · rintro _ ⟨a, _, rfl⟩ _ ⟨b, hb, rfl⟩
      cases b with
      | nil => exact absurd hb (paths_ne_nil_all.2.2 cs)
      | cons j r => simp [shift, precedes]
theorem paths_nodup (s : Option (List comment)) : (paths s).Nodup := by
  refine (pairwise_paths_all.2.1 s).imp ?_
  intro a b hab e
  subst e
  exact precedes_irrefl a hab

theorem index_lt_of_precedes {ps : List (List Nat)} (hps : ps.Pairwise precedes)
    {a b : Nat} {x y : List Nat} (ha : ps[a]? = some x) (hb : ps[b]? = some y)
    (hxy : precedes x y) : a < b := by
  obtain ⟨ha1, ha2⟩ := List.getElem?_eq_some.1 ha
  obtain ⟨hb1, hb2⟩ := List.getElem?_eq_some.1 hb
  rcases Nat.lt_trichotomy a b with h | h | h
  · exact h
  · subst h
    rw [ha2] at hb2
    exact absurd (hb2 ▸ hxy) (precedes_irrefl x)
  · have := List.pairwise_iff_getElem.1 hps b a hb1 ha1 h
    rw [ha2, hb2] at this
    exact absurd this (precedes_asymm x y hxy)

/-- C1: the output of flattenComments has one entry per node of the forest:
its length is the number of nodes at all depths, its entries are the nodes
at the positions of a duplicate-free list of exactly the positions of the
forest, and a forest without trees gives the empty sequence. -/
theorem flattenComments_every_node_once (forest : Option (List comment)) :
    (flattenComments forest).length = countNodes forest ∧
    (∃ ps : List (List Nat), ps.Nodup ∧
      (∀ p, p ∈ ps ↔ (nodeAt forest p).isSome = true) ∧
      (flattenComments forest).map some = ps.map (nodeAt forest)) ∧
    flattenComments (some []) = [] ∧ flattenComments none = [] :=
  ⟨flatten_length_all.2.1 forest,
   ⟨paths forest, paths_nodup forest, mem_paths_all.2.1 forest, flatten_map_all.2.1 forest⟩,
   rfl, rfl⟩

/-- C2: the output of flattenComments lists the nodes of the forest in
pre-order: it is the list of the nodes at all positions of the forest, in an
order where every node comes before each of its descendants and the whole
subtree of a sibling comes before the next sibling; the tree 1(2, 3(4))
flattens to the IDs 1, 2, 3, 4. -/
theorem flattenComments_preorder (forest : Option (List comment)) :
    (∃ ps : List (List Nat),
      (∀ p, p ∈ ps ↔ (nodeAt forest p).isSome = true) ∧
      (flattenComments forest).map some = ps.map (nodeAt forest) ∧
      (∀ (a b : Nat) (p q : List Nat), ps[a]? = some p → ps[b]? = some (p ++ q) → q ≠ [] → a < b) ∧
      (∀ (a b : Nat) (p r s : List Nat) (i j : Nat), ps[a]? = some (p ++ i :: r) → ps[b]? = some (p ++ j :: s) →
        i < j → a < b)) ∧
    (flattenComments scenarioTree).map comment.ID = [1, 2, 3, 4] :=
  ⟨⟨paths forest, mem_paths_all.2.1 forest, flatten_map_all.2.1 forest,
    fun _ _ p q ha hb hq =>
      index_lt_of_precedes (pairwise_paths_all.2.1 forest) ha hb (precedes_append p q hq),
    fun _ _ p r s i j ha hb hij =>
      index_lt_of_precedes (pairwise_paths_all.2.1 forest) ha hb (precedes_branch p r s i j hij)⟩,
   by decide⟩
theorem insertCommentsLoop_cons (c : comment) (cs : List comment) (table : List commentRow)
    (stderr : List String) :
    insertCommentsLoop (c :: cs) (table, stderr) =
      if c.ID ∈ table.map commentRow.ID then
        insertCommentsLoop cs (table, stderr ++ ["UNIQUE constraint failed: comments.ID"])
      else insertCommentsLoop cs (table ++ [rowOfComment c], stderr) := by
  simp only [insertCommentsLoop, jsonMarshal, execInsertComment, commentArgs, rowOfComment,
    List.any_eq_true, beq_iff_eq, List.mem_map]
  by_cases h : ∃ x, x ∈ table ∧ x.ID = c.ID
  · have h2 : ∃ a, a ∈ table ∧ a.ID = c.ID := h
    simp [h]
  · simp [h]

theorem insertCommentsLoop_table (cs : List comment) (table : List commentRow)
    (stderr : List String) :
    (insertCommentsLoop cs (table, stderr)).1 =
      table ++ (accepted (table.map commentRow.ID) cs).map rowOfComment := by
  induction cs generalizing table stderr with
  | nil => simp [insertCommentsLoop, accepted]
  | cons c cs ih =>
    rw [insertCommentsLoop_cons]
    by_cases h : c.ID ∈ table.map commentRow.ID
    · simp only [h, if_true, accepted]
      exact ih _ _
    · simp only [h, if_false, accepted]
      rw [ih]
      simp [rowOfComment, commentArgs]

theorem insertCommentsLoop_count (cs : List comment) (table : List commentRow)
    (stderr : List String) :
    (insertCommentsLoop cs (table, stderr)).2.length +
      (accepted (table.map commentRow.ID) cs).length = stderr.length + cs.length := by
  induction cs generalizing table stderr with
  | nil => simp [insertCommentsLoop, accepted]
  | cons c cs ih =>
    rw [insertCommentsLoop_cons]
    by_cases h : c.ID ∈ table.map commentRow.ID
    · simp only [h, if_true, accepted]
      rw [ih]
      simp; omega
    · simp only [h, if_false, accepted]
      have hID : (table ++ [rowOfComment c]).map commentRow.ID =
          table.map commentRow.ID ++ [c.ID] := by
        simp [rowOfComment, commentArgs]
      have := ih (table ++ [rowOfComment c]) stderr
      rw [hID] at this
      simp only [List.length_cons]
      omega

theorem accepted_eq_filter (seen : List Int) (cs : List comment) (k : Nat) :
    accepted seen cs =
      ((cs.enumFrom k).filter (fun nc =>
        !(decide (nc.2.ID ∈ seen) || decide (nc.2.ID ∈ (cs.take (nc.1 - k)).map comment.ID)))).map
        Prod.snd := by
  induction cs generalizing seen k with
  | nil => simp [accepted]
  | cons c cs ih =>
    simp only [accepted, List.enumFrom_cons, List.filter_cons, Nat.sub_self, List.take_zero,
      List.map_nil, List.not_mem_nil, decide_False, Bool.or_false]
    have key : ∀ seen2 : List Int, (∀ x, x ∈ seen2 ↔ x ∈ seen ∨ x = c.ID) →
        accepted seen2 cs = ((cs.enumFrom (k + 1)).filter (fun nc =>
          !(decide (nc.2.ID ∈ seen) ||
            decide (nc.2.ID ∈ ((c :: cs).take (nc.1 - k)).map comment.ID)))).map Prod.snd := by
      intro seen2 hseen
      rw [ih seen2 (k + 1)]
      congr 1
      apply List.filter_congr
      rintro ⟨n, x⟩ hx
      have hle := List.le_fst_of_mem_enumFrom hx
      simp only at hle
      obtain ⟨m, rfl⟩ : ∃ m, n = k + 1 + m := ⟨n - (k + 1), by omega⟩
      have e1 : k + 1 + m - (k + 1) = m := by omega
      have e2 : k + 1 + m - k = m + 1 := by omega
      simp only [e1, e2, List.take_succ_cons, List.map_cons, List.mem_cons, hseen]
      simp only [Bool.decide_or, Bool.or_assoc]
    by_cases h : c.ID ∈ seen
    · simp only [h, if_true, decide_True, Bool.not_true]
      simp only [Bool.false_eq_true, if_false]
      exact key seen (fun x => ⟨Or.inl, fun hx => hx.elim id (fun e => e ▸ h)⟩)
    · simp only [h, if_false, decide_False, Bool.not_false, if_true, List.map_cons]
      congr 1
      exact key (seen ++ [c.ID]) (fun x => by simp)
/-- C4: when prepare, begin and commit succeed, insertComments returns no
error; the table afterwards is the table before followed by the rows of
exactly the comments of the batch whose insert did not collide (ID already
in the table, or ID of an earlier comment of the batch), in the order of the
batch; each colliding comment leaves one line on the error stream and nothing
else. -/
theorem insertComments_row_scoped (db : TxFaults) (table : List commentRow)
    (comments : List comment) (hprepare : db.prepareErr = none) (hbegin : db.beginErr = none)
    (hcommit : db.commitErr = none) :
    (insertComments db table comments).err = none ∧
    (insertComments db table comments).table =
      table ++ ((comments.enum.filter (fun nc => !collides table comments nc.1 nc.2)).map
        (fun nc => rowOfComment nc.2)) ∧
    (∀ (n : Nat) (c : comment), comments[n]? = some c → collides table comments n c = false →
      rowOfComment c ∈ (insertComments db table comments).table) ∧
    (insertComments db table comments).stderr.length =
      (comments.enum.filter (fun nc => collides table comments nc.1 nc.2)).length := by
  have htable : (insertComments db table comments).table =
      table ++ ((comments.enum.filter (fun nc => !collides table comments nc.1 nc.2)).map
        (fun nc => rowOfComment nc.2)) := by
    simp only [insertComments, hprepare, hbegin, hcommit, insertCommentsLoop_table]
    rw [accepted_eq_filter (table.map commentRow.ID) comments 0, List.map_map]
    rfl
  refine ⟨by simp [insertComments, hprepare, hbegin, hcommit], htable, ?_, ?_⟩
  · intro n c hn hc
    rw [htable]
    refine List.mem_append_right _ (List.mem_map.2 ⟨(n, c), ?_, rfl⟩)
    exact List.mem_filter.2 ⟨List.mk_mem_enum_iff_getElem?.2 hn, by simp [hc]⟩
  · have hcount := insertCommentsLoop_count comments table []
    rw [accepted_eq_filter (table.map commentRow.ID) comments 0] at hcount
    have hsplit := @List.length_eq_length_filter_add _ (List.enum comments)
      (fun nc : Nat × comment => collides table comments nc.1 nc.2)
    simp only [insertComments, hprepare, hbegin, hcommit]
    simp only [List.length_map, List.enum_length, List.length_nil, Nat.zero_add] at hcount hsplit
    have e : (List.filter (fun nc : Nat × comment =>
        !(decide (nc.2.ID ∈ table.map commentRow.ID) ||
          decide (nc.2.ID ∈ (comments.take (nc.1 - 0)).map comment.ID)))
        (List.enumFrom 0 comments)).length =
        (List.filter (fun nc : Nat × comment => !collides table comments nc.1 nc.2)
          (List.enum comments)).length := rfl
    rw [e] at hcount
    omega

/-- C4 at a table holding comment 1 and the batch 1, 2, 2, 3: no error, the
rows 2 and 3 are added after the old row, two lines are logged. -/
theorem insertComments_row_scoped_witness :
    noFaults.prepareErr = none ∧ noFaults.beginErr = none ∧ noFaults.commitErr = none ∧
    (insertComments noFaults batchTable batch).err = none ∧
    (insertComments noFaults batchTable batch).table =
      batchTable ++ ((batch.enum.filter (fun nc => !collides batchTable batch nc.1 nc.2)).map
        (fun nc => rowOfComment nc.2)) ∧
    (insertComments noFaults batchTable batch).stderr.length =
      (batch.enum.filter (fun nc => collides batchTable batch nc.1 nc.2)).length ∧
    (batch.enum.filter (fun nc => !collides batchTable batch nc.1 nc.2)).map
        (fun nc => nc.2.ID) = [2, 3] :=
  ⟨rfl, rfl, rfl, (insertComments_row_scoped noFaults batchTable batch rfl rfl rfl).1,
   (insertComments_row_scoped noFaults batchTable batch rfl rfl rfl).2.1,
   (insertComments_row_scoped noFaults batchTable batch rfl rfl rfl).2.2.2, by decide⟩
theorem marshalComment_children (c : comment) :
    (marshalComment c).member "Children" = some (marshalSlice c.Children) := by
  cases c
  simp [marshalComment, JVal.member, List.find?, comment.Children]

theorem insertComments_table_eq (table : List commentRow) (comments : List comment) :
    (insertComments noFaults table comments).table =
      table ++ (accepted (table.map commentRow.ID) comments).map rowOfComment := by
  simp only [insertComments, noFaults, insertCommentsLoop_table]

/-- C8, as stated, fails: the comment 1 with the reply 2 and the same comment
without its reply store different rows, because OriginalJSON of the first
holds the reply. -/
theorem children_persisted_counterexample :
    parentComment.withChildren none = node 1 none ∧
    (insertComments noFaults [] [parentComment]).table ≠
      (insertComments noFaults [] [parentComment.withChildren none]).table ∧
    (insertComments noFaults [] (flattenComments (some [parentComment]))).table =
      [rowOfComment parentComment, rowOfComment (node 2 none)] ∧
    (rowOfComment parentComment).OriginalJSON.member "Children" =
      some (.arr [marshalComment (node 2 none)]) := by
  refine ⟨rfl, ?_, ?_, ?_⟩
  · intro h
    rw [insertComments_table_eq, insertComments_table_eq] at h
    have h2 := congrArg (fun t : List commentRow =>
      t.map (fun r => r.OriginalJSON.member "Children")) h
    simp [accepted, rowOfComment, commentArgs, marshalComment_children, parentComment, node,
      comment.withChildren, comment.Children, marshalSlice] at h2
  · rw [insertComments_table_eq]
    simp [accepted, parentComment, flattenComments, flattenRange, flattenNode, node, comment.ID]
  · simp [rowOfComment, commentArgs, marshalComment_children, parentComment, node,
      comment.Children, marshalSlice, marshalList]

/-- C8, amended: the typed columns stored for a comment do not depend on its
Children; OriginalJSON is the serialization of the whole comment, whose
member Children is the serialization of the slice of its children; and every
child is itself in the flattened sequence of its parent. -/
theorem children_columns_and_json (c : comment) (ch : Option (List comment)) :
    (rowOfComment (c.withChildren ch)).typedColumns = (rowOfComment c).typedColumns ∧
    (rowOfComment c).OriginalJSON = marshalComment c ∧
    (rowOfComment c).OriginalJSON.member "Children" = some (marshalSlice c.Children) ∧
    (∀ child, child ∈ elems c.Children → child ∈ flattenNode c) := by
  refine ⟨?_, rfl, marshalComment_children c, ?_⟩
  · cases c
    simp [comment.withChildren, rowOfComment, commentArgs, commentRow.typedColumns, comment.ID,
      comment.PostID, comment.UserID, comment.Date, comment.Body, comment.Name,
      comment.AncestorPath, comment.ChildrenCount]
  · intro child hchild
    rw [flattenNode_eq]
    refine List.mem_cons_of_mem _ ?_
    cases hch : c.Children with
    | none => simp [hch, elems] at hchild
    | some cs =>
      rw [hch] at hchild
      simp only [elems] at hchild
      simp only [flattenComments]
      clear hch
      induction cs with
      | nil => simp at hchild
      | cons x xs ih =>
        simp only [flattenRange, List.mem_append, flattenNode_eq, List.mem_cons]
        rcases List.mem_cons.1 hchild with h | h
        · exact Or.inl (Or.inl h)
        · exact Or.inr (ih h)
theorem getBodiesLoop_stdout (env : BodiesEnv) (slugs : List String) (s : BodiesState) :
    (getBodiesLoop env slugs s).stdout = s.stdout ++ slugs.map detailURL := by
  induction slugs generalizing s with
  | nil => simp [getBodiesLoop]
  | cons a rest ih =>
    simp only [getBodiesLoop]
    cases hg : env.get (detailURL a) with
    | error e => simp [ih]
    | ok body =>
      simp only []
      cases hu : env.unmarshalBodyHTML body with
      | error e => simp [ih]
      | ok v =>
        simp only []
        cases hx : env.updateErr a with
        | some e => simp [ih]
        | none => simp [ih]

theorem getBodiesLoop_stderr (env : BodiesEnv) (slugs : List String) (s : BodiesState) :
    (getBodiesLoop env slugs s).stderr.length =
      s.stderr.length + (slugs.filter (fun a => (fetched env a).isNone)).length := by
  induction slugs generalizing s with
  | nil => simp [getBodiesLoop]
  | cons a rest ih =>
    simp only [getBodiesLoop, List.filter_cons]
    cases hg : env.get (detailURL a) with
    | error e =>
      have hf : fetched env a = none := by simp [fetched, hg]
      simp [ih, hf]; omega
    | ok body =>
      simp only []
      cases hu : env.unmarshalBodyHTML body with
      | error e =>
        have hf : fetched env a = none := by simp [fetched, hg, hu]
        simp [ih, hf]; omega
      | ok v =>
        simp only []
        cases hx : env.updateErr a with
        | some e =>
          have hf : fetched env a = none := by simp [fetched, hg, hu, hx]
          simp [ih, hf]; omega
        | none =>
          have hf : fetched env a = some v := by simp [fetched, hg, hu, hx]
          simp [ih, hf]

theorem withFetched_update (env : BodiesEnv) (a v : String) (h : fetched env a = some v)
    (r : articleRow) :
    withFetched env (if r.Slug = a then { r with BodyHTML := some v } else r) =
      withFetched env r := by
  by_cases hr : r.Slug = a
  · simp only [hr, if_true, withFetched, h]
  · simp only [hr, if_false]

theorem getBodiesLoop_table (env : BodiesEnv) (slugs : List String) (s : BodiesState) :
    (getBodiesLoop env slugs s).table =
      s.table.map (fun r => if r.Slug ∈ slugs then withFetched env r else r) := by
  induction slugs generalizing s with
  | nil => simp [getBodiesLoop]
  | cons a rest ih =>
    have hfail : fetched env a = none →
        s.table.map (fun r => if r.Slug ∈ rest then withFetched env r else r) =
        s.table.map (fun r => if r.Slug ∈ a :: rest then withFetched env r else r) := by
      intro h
      apply List.map_congr_left
      intro r _
      by_cases hr : r.Slug = a
      · simp [hr, withFetched, h]
      · simp [hr]
    have hok : ∀ v, fetched env a = some v →
        (updateBodyHTML s.table v a).map
          (fun r => if r.Slug ∈ rest then withFetched env r else r) =
        s.table.map (fun r => if r.Slug ∈ a :: rest then withFetched env r else r) := by
      intro v h
      simp only [updateBodyHTML, List.map_map]
      apply List.map_congr_left
      intro r _
      by_cases hr : r.Slug = a
      · by_cases hm : a ∈ rest
        · simp [hr, hm, withFetched, h]
        · simp [hr, hm, withFetched, h]
      · simp [hr]
    simp only [getBodiesLoop]
    simp only [fetched] at hfail hok
    cases hg : env.get (detailURL a) with
    | error e => rw [ih]; exact hfail (by simp [hg])
    | ok body =>
      simp only []
      cases hu : env.unmarshalBodyHTML body with
      | error e => rw [ih]; exact hfail (by simp [hg, hu])
      | ok v =>
        simp only []
        cases hx : env.updateErr a with
        | some e => rw [ih]; exact hfail (by simp [hg, hu, hx])
        | none => rw [ih]; exact hok v (by simp [hg, hu, hx])

theorem fetched_eq_some (env : BodiesEnv) (a v : String) :
    fetched env a = some v ↔
      ∃ body, env.get (detailURL a) = .ok body ∧ env.unmarshalBodyHTML body = .ok v ∧
        env.updateErr a = none := by
  simp only [fetched]
  cases hg : env.get (detailURL a) with
  | error e => simp
  | ok body =>
    simp only []
    cases hu : env.unmarshalBodyHTML body with
    | error e => simp [hu]
    | ok w =>
      simp only []
      cases hx : env.updateErr a with
      | some e => simp
      | none => simp [hu]

/-- C6: when the query gives the slugs of the table, in whatever order,
getBodies requests every slug once per row, in the order of the query, and
ends normally; afterwards the table has the same rows in the same places,
where each row whose request, decoding and update all succeeded has
BodyHTML equal to the fetched body_html and every other column as before,
each row for which one of them failed is exactly as before, and each failed
slug has left one line on the error stream. -/
theorem getBodies_completes (env : BodiesEnv) (table : List articleRow)
    (articlesSlugs : List String) (hquery : env.query table = .ok articlesSlugs)
    (horder : articlesSlugs.Perm (table.map articleRow.Slug)) :
    ∃ s, getBodies env table = .done s ∧
      s.stdout = articlesSlugs.map detailURL ∧
      s.stdout.Perm (table.map (fun r => detailURL r.Slug)) ∧
      s.table = table.map (withFetched env) ∧
      (∀ r body v, r ∈ table → env.get (detailURL r.Slug) = .ok body →
        env.unmarshalBodyHTML body = .ok v → env.updateErr r.Slug = none →
        withFetched env r = { r with BodyHTML := some v }) ∧
      (∀ r, r ∈ table →
        ¬ (∃ body v, env.get (detailURL r.Slug) = .ok body ∧
          env.unmarshalBodyHTML body = .ok v ∧ env.updateErr r.Slug = none) →
        withFetched env r = r) ∧
      s.stderr.length =
        (table.filter (fun r => (fetched env r.Slug).isNone)).length ∧
      (∀ a v, fetched env a = some v ↔
        ∃ body, env.get (detailURL a) = .ok body ∧ env.unmarshalBodyHTML body = .ok v ∧
          env.updateErr a = none) := by
  refine ⟨getBodiesLoop env articlesSlugs { table := table, stdout := [], stderr := [] },
    by simp only [getBodies, hquery], ?_, ?_, ?_, ?_, ?_, ?_, fetched_eq_some env⟩
  · simp [getBodiesLoop_stdout]
  · rw [getBodiesLoop_stdout]
    simpa [Function.comp_def] using horder.map detailURL
  · rw [getBodiesLoop_table]
    apply List.map_congr_left
    intro r hr
    have : r.Slug ∈ articlesSlugs := horder.mem_iff.2 (List.mem_map_of_mem _ hr)
    simp [this]
  · intro r body v _ hg hu hx
    have h : fetched env r.Slug = some v := (fetched_eq_some env r.Slug v).2 ⟨body, hg, hu, hx⟩
    simp [withFetched, h]
  · intro r _ hfail
    have h : fetched env r.Slug = none := by
      cases hf : fetched env r.Slug with
      | none => rfl
      | some v =>
        obtain ⟨body, hg, hu, hx⟩ := (fetched_eq_some env r.Slug v).1 hf
        exact absurd ⟨body, v, hg, hu, hx⟩ hfail
    simp [withFetched, h]
  · rw [getBodiesLoop_stderr]
    have hp := (horder.filter (fun a => (fetched env a).isNone)).length_eq
    simp only [List.length_nil, Nat.zero_add]
    rw [hp]
    simp [List.filter_map, Function.comp_def]
theorem decodeItems_map {α β : Type} (f : JVal → Except String α) (doc : β → JVal)
    (val : β → α) (items : List β) (h : ∀ it ∈ items, f (doc it) = .ok (val it)) :
    decodeItems f (items.map doc) = .ok (items.map val) := by
  induction items with
  | nil => rfl
  | cons it rest ih =>
    have h1 := h it (List.mem_cons_self _ _)
    have h2 := ih (fun x hx => h x (List.mem_cons_of_mem _ hx))
    simp only [List.map_cons, decodeItems, h1, h2]

theorem decodeItems_length {α : Type} (f : JVal → Except String α) (items : List JVal)
    (xs : List α) (h : decodeItems f items = .ok xs) : xs.length = items.length := by
  induction items generalizing xs with
  | nil =>
    simp only [decodeItems] at h
    cases h
    rfl
  | cons v rest ih =>
    simp only [decodeItems] at h
    cases hv : f v with
    | error e => simp [hv] at h
    | ok a =>
      cases hr : decodeItems f rest with
      | error e => simp [hv, hr] at h
      | ok as =>
        simp only [hv, hr, Except.ok.injEq] at h
        subst h
        simp [ih as hr]

theorem unmarshal_lengths (env : ListerEnv) (body : String) (articles : List article)
    (articlesJSON : List JVal) (h1 : unmarshalArticles env body = .ok articles)
    (h2 : unmarshalGeneric env body = .ok articlesJSON) :
    articles.length = articlesJSON.length := by
  simp only [unmarshalArticles, unmarshalGeneric, unmarshalSlice] at h1 h2
  cases hs : env.scan body with
  | none => simp [hs] at h1
  | some v =>
    cases v with
    | null =>
      simp only [hs, Except.ok.injEq] at h1 h2
      subst h1 h2
      simp
    | arr items =>
      simp only [hs] at h1 h2
      rw [decodeItems_length _ _ _ h1, decodeItems_length _ _ _ h2]
    | bool b => simp [hs] at h1
    | num l => simp [hs] at h1
    | str l => simp [hs] at h1
    | obj l => simp [hs] at h1

theorem insertPage_no_panic (env : ListerEnv) (articlesJSON : List JVal)
    (articles : List article) (i : Nat) (table : List articleRow)
    (h : i + articles.length ≤ articlesJSON.length) (msg : String) :
    insertPage env articlesJSON articles i table ≠ .panic msg := by
  induction articles generalizing i table with
  | nil => simp [insertPage]
  | cons a rest ih =>
    simp only [insertPage]
    simp only [List.length_cons] at h
    have hi : i < articlesJSON.length := by omega
    rw [List.getElem?_eq_getElem hi]
    simp only []
    cases env.marshal articlesJSON[i] with
    | error e => simp
    | ok t =>
      simp only []
      cases execInsertArticle table (articleArgs a t) with
      | error e => exact ih (i + 1) table (by omega)
      | ok t1 => exact ih (i + 1) t1 (by omega)
theorem insertAll_cons (table : List articleRow) (r : articleRow) (rows : List articleRow) :
    insertAll table (r :: rows) =
      insertAll (match execInsertArticle table r with
        | .ok t1 => t1
        | .error _ => table) rows := rfl

theorem insertPage_served (env : ListerEnv) (pre : List JVal) (items : List Served)
    (table : List articleRow) (h : ∀ it ∈ items, env.marshal it.doc = .ok it.text) :
    insertPage env (pre ++ items.map Served.doc) (items.map Served.art) pre.length table =
      .done (insertAll table (items.map rowOfServed)) := by
  induction items generalizing pre table with
  | nil => simp [insertPage, insertAll]
  | cons it rest ih =>
    have h1 := h it (List.mem_cons_self _ _)
    have h2 : ∀ x ∈ rest, env.marshal x.doc = .ok x.text :=
      fun x hx => h x (List.mem_cons_of_mem _ hx)
    have hidx : (pre ++ (it :: rest).map Served.doc)[pre.length]? = some it.doc := by
      rw [List.getElem?_append_right (Nat.le_refl _)]
      simp
    have hpre : pre ++ (it :: rest).map Served.doc = (pre ++ [it.doc]) ++ rest.map Served.doc := by
      simp
    simp only [List.map_cons, insertPage, insertAll_cons]
    rw [show pre ++ it.doc :: rest.map Served.doc = pre ++ (it :: rest).map Served.doc from rfl,
      hidx]
    simp only [h1]
    have hlen : pre.length + 1 = (pre ++ [it.doc]).length := by simp
    cases hx : execInsertArticle table (articleArgs it.art it.text) with
    | error e =>
      simp only [rowOfServed, hx]
      rw [hpre, hlen]
      exact ih (pre ++ [it.doc]) table h2
    | ok t1 =>
      simp only [rowOfServed, hx]
      rw [hpre, hlen]
      exact ih (pre ++ [it.doc]) t1 h2

theorem pageTurn_stop (env : ListerEnv) (offset : Nat) (s : ListerState)
    (h : env.get offset = .ok noArticles) :
    pageTurn env offset s = .stop (afterTurn s offset s.table) := by
  simp [pageTurn, h, afterTurn]

theorem pageTurn_next (env : ListerEnv) (offset : Nat) (s : ListerState) (body : String)
    (items : List Served) (hget : env.get offset = .ok body) (hpage : servesPage env body items)
    (htx : txOK env offset) :
    pageTurn env offset s =
      .next (afterTurn s offset (insertAll s.table (items.map rowOfServed))) := by
  obtain ⟨hne, hscan, hitems⟩ := hpage
  obtain ⟨hp, hb, hc⟩ := htx
  have hdec : unmarshalArticles env body = .ok (items.map Served.art) := by
    simp only [unmarshalArticles, unmarshalSlice, hscan]
    exact decodeItems_map _ _ _ _ (fun it hit => (hitems it hit).1)
  have hgen : unmarshalGeneric env body = .ok (items.map Served.doc) := by
    simp only [unmarshalGeneric, unmarshalSlice, hscan]
    have := decodeItems_map (fun v => Except.ok v) (fun v : JVal => v) (fun v : JVal => v)
      (items.map Served.doc) (fun _ _ => rfl)
    simpa using this
  have hins := insertPage_served env [] items s.table (fun it hit => (hitems it hit).2)
  simp only [List.nil_append, List.length_nil] at hins
  simp only [pageTurn, hget, hne, if_false, hdec, hgen, hp, hb, hc, hins, afterTurn]

theorem pageTurn_stop_iff (env : ListerEnv) (offset : Nat) (s : ListerState) :
    (∃ s1, pageTurn env offset s = .stop s1) ↔ env.get offset = .ok noArticles := by
  constructor
  · rintro ⟨s1, h⟩
    simp only [pageTurn] at h
    cases hg : env.get offset with
    | error e => simp [hg] at h
    | ok body =>
      by_cases hb : body = noArticles
      · rw [hb]
      · exfalso
        simp only [hg, hb, if_false] at h
        revert h
        cases unmarshalArticles env body <;> simp only [] <;> try (intro h; cases h)
        cases unmarshalGeneric env body <;> simp only [] <;> try (intro h; cases h)
        cases env.prepareErr offset <;> simp only [] <;> try (intro h; cases h)
        cases env.beginErr offset <;> simp only [] <;> try (intro h; cases h)
        cases insertPage env _ _ 0 _ <;> simp only [] <;> try (intro h; cases h)
        cases env.commitErr offset <;> simp only [] <;> (intro h; cases h)
  · intro h
    exact ⟨_, pageTurn_stop env offset s h⟩

theorem pageTurn_no_panic (env : ListerEnv) (offset : Nat) (s : ListerState) (msg : String) :
    pageTurn env offset s ≠ .panic msg := by
  simp only [pageTurn]
  cases hg : env.get offset with
  | error e => simp
  | ok body =>
    simp only []
    by_cases hb : body = noArticles
    · simp [hb]
    · simp only [hb, if_false]
      cases h1 : unmarshalArticles env body with
      | error e => simp
      | ok articles =>
        simp only []
        cases h2 : unmarshalGeneric env body with
        | error e => simp
        | ok articlesJSON =>
          simp only []
          cases env.prepareErr offset with
          | some e => simp
          | none =>
            simp only []
            cases env.beginErr offset with
            | some e => simp
            | none =>
              simp only []
              have hlen := unmarshal_lengths env body articles articlesJSON h1 h2
              have hnp := insertPage_no_panic env articlesJSON articles 0
                (s.table) (by omega)
              cases hins : insertPage env articlesJSON articles 0 s.table with
              | panic m => exact absurd hins (hnp m)
              | fatal m => simp
              | done t =>
                simp only []
                cases env.commitErr offset <;> simp

theorem pageLoop_no_panic (env : ListerEnv) (fuel offset : Nat) (s : ListerState)
    (msg : String) : pageLoop env fuel offset s ≠ .panic msg := by
  induction fuel generalizing offset s with
  | zero => simp [pageLoop]
  | succ n ih =>
    simp only [pageLoop]
    cases ht : pageTurn env offset s with
    | stop s1 => simp
    | fatal m => simp
    | panic m => exact absurd ht (pageTurn_no_panic env offset s m)
    | next s1 => exact ih (offset + 12) s1
/-- C10: when both decodings of a body succeed, the typed list and the
generic list have the same length, every index of the typed list is an
index of the generic list, and neither the rows of a page nor the page loop
can end in an index-out-of-range panic. -/
theorem decoded_lists_same_length (env : ListerEnv) (body : String) (articles : List article)
    (articlesJSON : List JVal) (h1 : unmarshalArticles env body = .ok articles)
    (h2 : unmarshalGeneric env body = .ok articlesJSON) :
    articles.length = articlesJSON.length ∧
    (∀ i : Nat, i < articles.length → ∃ v, articlesJSON[i]? = some v) ∧
    (∀ table msg, insertPage env articlesJSON articles 0 table ≠ .panic msg) ∧
    (∀ fuel offset s msg, pageLoop env fuel offset s ≠ .panic msg) := by
  have hlen := unmarshal_lengths env body articles articlesJSON h1 h2
  refine ⟨hlen, fun i hi => ?_, fun table msg => ?_, fun fuel offset s msg => ?_⟩
  · have hi2 : i < articlesJSON.length := by omega
    exact ⟨articlesJSON[i], List.getElem?_eq_getElem hi2⟩
  · exact insertPage_no_panic env articlesJSON articles 0 table (by omega) msg
  · exact pageLoop_no_panic env fuel offset s msg

/-- C10 at the page of two items: both decodings succeed and give lists of
length two. -/
theorem decoded_lists_same_length_witness :
    unmarshalArticles twoItemsLister twoItemsPage.1 = .ok [mockArticle 1 "a", mockArticle 2 "b"] ∧
    unmarshalGeneric twoItemsLister twoItemsPage.1 = .ok [mockDoc "1" "a", mockDoc "2" "b"] ∧
    [mockArticle 1 "a", mockArticle 2 "b"].length = [mockDoc "1" "a", mockDoc "2" "b"].length :=
  ⟨rfl, rfl, (decoded_lists_same_length twoItemsLister twoItemsPage.1 _ _ rfl rfl).1⟩

theorem pageLoop_succ (env : ListerEnv) (fuel offset : Nat) (s : ListerState) :
    pageLoop env (fuel + 1) offset s =
      match pageTurn env offset s with
      | .stop s1 => .done s1
      | .fatal msg => .fatal msg
      | .panic msg => .panic msg
      | .next s1 => pageLoop env fuel (offset + 12) s1 := rfl

/-- C9, as stated, fails: the body `[ ]` is an encoding of the empty array,
both decodings give the empty list, and getArticles goes on to request the
offset 12. -/
theorem blank_empty_array_counterexample :
    blankLister.get 0 = .ok "[ ]" ∧
    blankLister.scan "[ ]" = some (.arr []) ∧
    unmarshalArticles blankLister "[ ]" = .ok [] ∧
    unmarshalGeneric blankLister "[ ]" = .ok [] ∧
    pageTurn blankLister 0 (startState []) = .next (afterTurn (startState []) 0 []) ∧
    getArticles blankLister 2 [] =
      .done { table := [], requests := [0, 12],
              stdout := [listingURL 0, listingURL 12, "0 articles found"], stderr := [] } :=
  ⟨rfl, rfl, rfl, rfl, rfl, rfl⟩

/-- C9, amended: a turn of the page loop stops exactly when the body is the
literal of noArticles, and then nothing is inserted and no further request
is made; a body that is any other text of an array, empty or not, whose
items decode has its rows executed and committed, and the loop goes on at
the offset plus 12. -/
theorem literal_is_sole_stop (env : ListerEnv) (fuel offset : Nat) (s : ListerState) :
    ((∃ s1, pageTurn env offset s = .stop s1) ↔ env.get offset = .ok noArticles) ∧
    (env.get offset = .ok noArticles →
      pageLoop env (fuel + 1) offset s = .done (afterTurn s offset s.table)) ∧
    (∀ body items, env.get offset = .ok body → servesPage env body items → txOK env offset →
      pageLoop env (fuel + 1) offset s =
        pageLoop env fuel (offset + 12)
          (afterTurn s offset (insertAll s.table (items.map rowOfServed)))) := by
  refine ⟨pageTurn_stop_iff env offset s, fun h => ?_, fun body items hget hpage htx => ?_⟩
  · rw [pageLoop_succ, pageTurn_stop env offset s h]
  · rw [pageLoop_succ, pageTurn_next env offset s body items hget hpage htx]

theorem twoItems_served : servesPage twoItemsLister twoItemsPage.1 twoItems := by
  refine ⟨by decide, rfl, ?_⟩
  intro it hit
  simp only [twoItems, List.mem_cons, List.mem_singleton, List.not_mem_nil, or_false] at hit
  rcases hit with rfl | rfl <;> exact ⟨rfl, rfl⟩

/-- C9, amended, at the endpoint that serves two items and then the literal:
the turn at offset 12 stops, the turn at offset 0 goes on to offset 12. -/
theorem literal_is_sole_stop_witness :
    twoItemsLister.get 12 = .ok noArticles ∧
    pageLoop twoItemsLister 1 12 (startState []) = .done (afterTurn (startState []) 12 []) ∧
    twoItemsLister.get 0 = .ok twoItemsPage.1 ∧
    servesPage twoItemsLister twoItemsPage.1 twoItems ∧ txOK twoItemsLister 0 ∧
    pageLoop twoItemsLister 2 0 (startState []) =
      pageLoop twoItemsLister 1 12
        (afterTurn (startState []) 0 (insertAll [] (twoItems.map rowOfServed))) :=
  ⟨rfl, (literal_is_sole_stop twoItemsLister 0 12 (startState [])).2.1 rfl, rfl,
   twoItems_served, ⟨rfl, rfl, rfl⟩,
   (literal_is_sole_stop twoItemsLister 1 0 (startState [])).2.2 twoItemsPage.1 twoItems rfl
     twoItems_served ⟨rfl, rfl, rfl⟩⟩
theorem pageLoop_walk (env : ListerEnv) (items : List Served)
    (hend : ∀ k, items.length ≤ 12 * k → env.get (12 * k) = .ok noArticles)
    (hpage : ∀ k, 12 * k < items.length →
      ∃ body, env.get (12 * k) = .ok body ∧ servesPage env body ((items.drop (12 * k)).take 12))
    (htx : ∀ k, txOK env (12 * k)) :
    ∀ (d j fuel : Nat) (s : ListerState), j + d = (items.length + 11) / 12 → d + 1 ≤ fuel →
      ∃ s1, pageLoop env fuel (12 * j) s = .done s1 ∧
        s1.requests = s.requests ++ (List.range' j (d + 1)).map (fun k => 12 * k) := by
  intro d
  induction d with
  | zero =>
    intro j fuel s hj hfuel
    obtain ⟨f, rfl⟩ : ∃ f, fuel = f + 1 := ⟨fuel - 1, by omega⟩
    have hstop := pageTurn_stop env (12 * j) s (hend j (by omega))
    refine ⟨afterTurn s (12 * j) s.table, by rw [pageLoop_succ, hstop], ?_⟩
    simp [afterTurn]
  | succ d ih =>
    intro j fuel s hj hfuel
    obtain ⟨f, rfl⟩ : ∃ f, fuel = f + 1 := ⟨fuel - 1, by omega⟩
    obtain ⟨body, hget, hserve⟩ := hpage j (by omega)
    have hnext := pageTurn_next env (12 * j) s body _ hget hserve (htx j)
    obtain ⟨s1, hs1, hreq⟩ := ih (j + 1) f
      (afterTurn s (12 * j) (insertAll s.table
        (((items.drop (12 * j)).take 12).map rowOfServed))) (by omega) (by omega)
    refine ⟨s1, ?_, ?_⟩
    · rw [pageLoop_succ, hnext]
      exact hs1
    · rw [hreq]
      simp [afterTurn, List.range'_succ]

/-- C3: against an endpoint that serves, at each offset 12k below the item
count n, a page holding the items at the positions from 12k up to 12k + 12,
and the literal of noArticles at each offset 12k from n on, getArticles ends
normally after requesting exactly the offsets 0, 12, ..., 12 * ceil(n/12),
in that order: ceil(n/12) + 1 requests. -/
theorem getArticles_request_count (env : ListerEnv) (items : List Served)
    (table : List articleRow) (fuel : Nat) (hschema : env.schemaErr = none)
    (hend : ∀ k, items.length ≤ 12 * k → env.get (12 * k) = .ok noArticles)
    (hpage : ∀ k, 12 * k < items.length →
      ∃ body, env.get (12 * k) = .ok body ∧ servesPage env body ((items.drop (12 * k)).take 12))
    (htx : ∀ k, txOK env (12 * k))
    (hfuel : (items.length + 11) / 12 + 1 ≤ fuel) :
    ∃ s, getArticles env fuel table = .done s ∧
      s.requests = (List.range ((items.length + 11) / 12 + 1)).map (fun k => 12 * k) ∧
      s.requests.length = (items.length + 11) / 12 + 1 := by
  obtain ⟨s1, hs1, hreq⟩ := pageLoop_walk env items hend hpage htx ((items.length + 11) / 12) 0
    fuel (startState table) (by omega) hfuel
  have hreq2 : s1.requests =
      (List.range ((items.length + 11) / 12 + 1)).map (fun k => 12 * k) := by
    rw [hreq, List.range_eq_range']
    simp [startState]
  refine ⟨{ s1 with stdout := s1.stdout ++ [toString s1.table.length ++ " articles found"] },
    ?_, hreq2, ?_⟩
  · simp only [getArticles, hschema]
    rw [show (12 * 0 : Nat) = 0 from rfl] at hs1
    rw [hs1]
  · show s1.requests.length = _
    rw [hreq2]
    simp
theorem insertAll_nil (table : List articleRow) : insertAll table [] = table := rfl

theorem insertAll_append (table : List articleRow) (a b : List articleRow) :
    insertAll (insertAll table a) b = insertAll table (a ++ b) := by
  simp [insertAll, List.foldl_append]

theorem insertAll_fresh (rows table : List articleRow)
    (hid : ((table ++ rows).map articleRow.ID).Nodup)
    (hslug : ((table ++ rows).map articleRow.Slug).Nodup) :
    insertAll table rows = table ++ rows := by
  induction rows generalizing table with
  | nil => simp [insertAll]
  | cons r rest ih =>
    have e : table ++ r :: rest = (table ++ [r]) ++ rest := by simp
    have h1 : ¬ ∃ x, x ∈ table ∧ x.ID = r.ID := by
      rintro ⟨x, hx, hxr⟩
      rw [List.map_append, List.nodup_append] at hid
      exact hid.2.2 (List.mem_map_of_mem _ hx)
        (by rw [hxr]; exact List.mem_map_of_mem _ (List.mem_cons_self _ _))
    have h2 : ¬ ∃ x, x ∈ table ∧ x.Slug = r.Slug := by
      rintro ⟨x, hx, hxr⟩
      rw [List.map_append, List.nodup_append] at hslug
      exact hslug.2.2 (List.mem_map_of_mem _ hx)
        (by rw [hxr]; exact List.mem_map_of_mem _ (List.mem_cons_self _ _))
    have hx : execInsertArticle table r = .ok (table ++ [r]) := by
      simp only [execInsertArticle, List.any_eq_true, beq_iff_eq, h1, h2, if_false]
    rw [insertAll_cons, hx, e]
    exact ih (table ++ [r]) (e ▸ hid) (e ▸ hslug)

theorem pageLoop_pages (env : ListerEnv) (pages : List (String × List Served))
    (hpages : ∀ (k : Nat) (pg : String × List Served), pages[k]? = some pg →
      env.get (12 * k) = .ok pg.1 ∧ servesPage env pg.1 pg.2)
    (hend : env.get (12 * pages.length) = .ok noArticles)
    (htx : ∀ k, txOK env (12 * k)) :
    ∀ (todo done : List (String × List Served)) (fuel : Nat) (s : ListerState),
      pages = done ++ todo → todo.length + 1 ≤ fuel →
      ∃ s1, pageLoop env fuel (12 * done.length) s = .done s1 ∧
        s1.table = insertAll s.table ((todo.flatMap Prod.snd).map rowOfServed) ∧
        s1.requests =
          s.requests ++ (List.range' done.length (todo.length + 1)).map (fun k => 12 * k) ∧
        s1.stderr = s.stderr := by
  intro todo
  induction todo with
  | nil =>
    intro done fuel s hp hfuel
    obtain ⟨f, rfl⟩ : ∃ f, fuel = f + 1 := ⟨fuel - 1, by omega⟩
    have hlen : pages.length = done.length := by simp [hp]
    rw [hlen] at hend
    refine ⟨afterTurn s (12 * done.length) s.table, ?_, ?_, ?_, ?_⟩
    · rw [pageLoop_succ, pageTurn_stop env _ s hend]
    · simp [afterTurn, insertAll]
    · simp [afterTurn]
    · simp [afterTurn]
  | cons pg rest ih =>
    intro done fuel s hp hfuel
    simp only [List.length_cons] at hfuel
    obtain ⟨f, rfl⟩ : ∃ f, fuel = f + 1 := ⟨fuel - 1, by omega⟩
    have hk : pages[done.length]? = some pg := by
      rw [hp, List.getElem?_append_right (Nat.le_refl _)]
      simp
    obtain ⟨hget, hserve⟩ := hpages done.length pg hk
    have hnext := pageTurn_next env (12 * done.length) s pg.1 pg.2 hget hserve (htx _)
    obtain ⟨s1, hs1, htable, hreq, herr⟩ := ih (done ++ [pg]) f
      (afterTurn s (12 * done.length) (insertAll s.table (pg.2.map rowOfServed)))
      (by simp [hp]) (by omega)
    have hoff : 12 * (done ++ [pg]).length = 12 * done.length + 12 := by
      simp; omega
    rw [hoff] at hs1
    refine ⟨s1, ?_, ?_, ?_, ?_⟩
    · rw [pageLoop_succ, hnext]
      exact hs1
    · rw [htable]
      simp only [afterTurn, insertAll_append, List.flatMap_cons, List.map_append]
    · rw [hreq]
      simp [afterTurn, List.range'_succ]
    · rw [herr]
      simp [afterTurn]

theorem servesPage_unmarshal (env : ListerEnv) (body : String) (items : List Served)
    (h : servesPage env body items) :
    unmarshalArticles env body = .ok (items.map Served.art) ∧
    unmarshalGeneric env body = .ok (items.map Served.doc) := by
  obtain ⟨_, hscan, hitems⟩ := h
  constructor
  · simp only [unmarshalArticles, unmarshalSlice, hscan]
    exact decodeItems_map _ _ _ _ (fun it hit => (hitems it hit).1)
  · simp only [unmarshalGeneric, unmarshalSlice, hscan]
    have := decodeItems_map (fun v => Except.ok v) (fun v : JVal => v) (fun v : JVal => v)
      (items.map Served.doc) (fun _ _ => rfl)
    simpa using this

/-- C5: against an endpoint that serves the given pages at the offsets 0, 12,
... and then the literal of noArticles, the articles of the pages having
pairwise distinct IDs and pairwise distinct slugs, getArticles started on an
empty table ends normally with exactly one row per served article, in order:
each of the fourteen typed columns of the row is the field of that name of
the article the typed decoding of the page gives at that index, OriginalJSON
is the serialization of the item the generic decoding of the same page gives
at that index, and BodyHTML is unset; the last printed line reports the
number of served articles. -/
theorem getArticles_stores_every_article (env : ListerEnv)
    (pages : List (String × List Served)) (fuel : Nat) (hschema : env.schemaErr = none)
    (hpages : ∀ (k : Nat) (pg : String × List Served), pages[k]? = some pg →
      env.get (12 * k) = .ok pg.1 ∧ servesPage env pg.1 pg.2)
    (hend : env.get (12 * pages.length) = .ok noArticles)
    (htx : ∀ k, txOK env (12 * k))
    (hids : ((pages.flatMap Prod.snd).map (fun it => it.art.ID)).Nodup)
    (hslugs : ((pages.flatMap Prod.snd).map (fun it => it.art.Slug)).Nodup)
    (hfuel : pages.length + 1 ≤ fuel) :
    ∃ s, getArticles env fuel [] = .done s ∧
      s.table = (pages.flatMap Prod.snd).map (fun it =>
        ({ ID := it.art.ID, PublicationID := it.art.PublicationID, Title := it.art.Title,
           SocialTitle := it.art.SocialTitle, Slug := it.art.Slug, PostDate := it.art.PostDate,
           Audience := it.art.Audience,
           WriteCommentPermissions := it.art.WriteCommentPermissions,
           CanonicalURL := it.art.CanonicalURL, CoverImage := it.art.CoverImage,
           Description := it.art.Description, WordCount := it.art.WordCount,
           CommentCount := it.art.CommentCount,
           ChildCommentCount := it.art.ChildCommentCount, OriginalJSON := it.text,
           BodyHTML := none } : articleRow)) ∧
      (∀ pg ∈ pages,
        unmarshalArticles env pg.1 = .ok (pg.2.map Served.art) ∧
        unmarshalGeneric env pg.1 = .ok (pg.2.map Served.doc) ∧
        ∀ it ∈ pg.2, env.marshal it.doc = .ok it.text) ∧
      s.table.length = (pages.flatMap Prod.snd).length ∧
      s.stdout.getLast? =
        some (toString (pages.flatMap Prod.snd).length ++ " articles found") := by
  obtain ⟨s1, hs1, htable, _, _⟩ := pageLoop_pages env pages hpages hend htx pages [] fuel
    (startState []) rfl hfuel
  have hrows : s1.table = (pages.flatMap Prod.snd).map rowOfServed := by
    rw [htable]
    have := insertAll_fresh ((pages.flatMap Prod.snd).map rowOfServed) []
      (by simpa [rowOfServed, articleArgs, Function.comp_def] using hids)
      (by simpa [rowOfServed, articleArgs, Function.comp_def] using hslugs)
    simpa [startState] using this
  have hlen : s1.table.length = (pages.flatMap Prod.snd).length := by
    rw [hrows, List.length_map]
  refine ⟨{ s1 with stdout := s1.stdout ++ [toString s1.table.length ++ " articles found"] },
    ?_, hrows, ?_, hlen, ?_⟩
  · simp only [getArticles, hschema]
    rw [show (12 * ([] : List (String × List Served)).length : Nat) = 0 from rfl] at hs1
    rw [hs1]
  · intro pg hpg
    obtain ⟨k, hk⟩ := List.getElem?_of_mem hpg
    have hserve := (hpages k pg hk).2
    exact ⟨(servesPage_unmarshal env pg.1 pg.2 hserve).1,
      (servesPage_unmarshal env pg.1 pg.2 hserve).2, fun it hit => (hserve.2.2 it hit).2⟩
  · show (s1.stdout ++ [toString s1.table.length ++ " articles found"]).getLast? = _
    rw [List.getLast?_concat, hlen]
theorem mockLister_get (pages : List (String × JVal)) (k : Nat) :
    (mockLister pages).get (12 * k) =
      match pages[k]? with
      | some page => .ok page.1
      | none => .ok noArticles := by
  simp [mockLister, Nat.mul_div_cancel_left]

theorem firstTwelve_decode :
    ∀ it ∈ firstTwelve, mockDecode it.doc = .ok it.art ∧ mockMarshal it.doc = .ok it.text := by
  intro it hit
  simp only [firstTwelve, List.mem_cons, List.mem_singleton, List.not_mem_nil, or_false] at hit
  rcases hit with rfl | rfl | rfl | rfl | rfl | rfl | rfl | rfl | rfl | rfl | rfl | rfl <;>
    exact ⟨rfl, rfl⟩

set_option maxRecDepth 100000 in
theorem firstTwelve_served (rest : List (String × JVal)) :
    servesPage (mockLister (firstTwelvePage :: rest)) firstTwelveText firstTwelve :=
  ⟨by decide, by simp [mockLister, List.lookup, firstTwelvePage], firstTwelve_decode⟩

set_option maxRecDepth 100000 in
theorem thirteenth_served :
    servesPage thirteenLister thirteenthPage.1 [mockServed 13 "13" "p13"] := by
  refine ⟨by decide, rfl, ?_⟩
  intro it hit
  simp only [List.mem_singleton] at hit
  subst hit
  exact ⟨rfl, rfl⟩

/-- C3 at thirteen articles: three requests, at the offsets 0, 12 and 24. -/
theorem getArticles_request_count_witness :
    thirteenLister.schemaErr = none ∧ thirteen.length = 13 ∧
    ∃ s, getArticles thirteenLister 3 [] = .done s ∧
      s.requests = (List.range ((thirteen.length + 11) / 12 + 1)).map (fun k => 12 * k) ∧
      s.requests.length = (thirteen.length + 11) / 12 + 1 := by
  refine ⟨rfl, rfl, getArticles_request_count thirteenLister thirteen [] 3 rfl ?_ ?_ ?_ ?_⟩
  · intro k hk
    have h13 : thirteen.length = 13 := rfl
    have hk2 : 2 ≤ k := by omega
    obtain ⟨j, rfl⟩ : ∃ j, k = j + 2 := ⟨k - 2, by omega⟩
    rw [thirteenLister, mockLister_get]
    rfl
  · intro k hk
    have h13 : thirteen.length = 13 := rfl
    have hk2 : k = 0 ∨ k = 1 := by omega
    rcases hk2 with rfl | rfl
    · exact ⟨firstTwelveText, rfl, firstTwelve_served _⟩
    · exact ⟨thirteenthPage.1, rfl, thirteenth_served⟩
  · intro k
    exact ⟨rfl, rfl, rfl⟩
  · decide

/-- C5 at a page of the articles 1 to 12 followed by the literal: twelve
rows holding the IDs 1 to 12 and the slugs p1 to p12, the first with the
serialization of its item as OriginalJSON, and the report of twelve
articles. -/
theorem getArticles_stores_every_article_witness :
    twelveLister.schemaErr = none ∧
    twelveLister.get 0 = .ok firstTwelveText ∧ twelveLister.get 12 = .ok noArticles ∧
    ∃ s, getArticles twelveLister 2 [] = .done s ∧
      s.table.map (fun r => (r.ID, r.Slug)) =
        [(1, "p1"), (2, "p2"), (3, "p3"), (4, "p4"), (5, "p5"), (6, "p6"), (7, "p7"),
          (8, "p8"), (9, "p9"), (10, "p10"), (11, "p11"), (12, "p12")] ∧
      (s.table.map articleRow.OriginalJSON).head? =
        some "\x7b\"id\":1,\"slug\":\"p1\"\x7d" ∧
      s.table.length = 12 ∧
      s.stdout.getLast? = some "12 articles found" := by
  refine ⟨rfl, rfl, rfl, ?_⟩
  obtain ⟨s, hs, htable, _, hlen, hout⟩ :=
    getArticles_stores_every_article twelveLister [(firstTwelveText, firstTwelve)] 2 rfl
    (by
      intro k pg hk
      cases k with
      | zero =>
        simp only [List.getElem?_cons_zero, Option.some.injEq] at hk
        subst hk
        exact ⟨rfl, firstTwelve_served _⟩
      | succ j => simp at hk)
    rfl (fun k => ⟨rfl, rfl, rfl⟩) (by decide) (by decide) (by decide)
  refine ⟨s, hs, ?_, ?_, hlen, hout⟩
  · rw [htable]
    rfl
  · rw [htable]
    rfl
theorem pageTurn_stderr (env : ListerEnv) (offset : Nat) (s s1 : ListerState)
    (h : pageTurn env offset s = .next s1 ∨ pageTurn env offset s = .stop s1) :
    s1.stderr = s.stderr := by
  simp only [pageTurn] at h
  revert h
  cases env.get offset with
  | error e => simp
  | ok body =>
    simp only []
    by_cases hb : body = noArticles
    · simp only [hb, if_true]
      rintro (h | h)
      · cases h
      · cases h; rfl
    · simp only [hb, if_false]
      cases unmarshalArticles env body <;> simp only [] <;> try (rintro (h | h) <;> cases h)
      cases unmarshalGeneric env body <;> simp only [] <;> try (rintro (h | h) <;> cases h)
      cases env.prepareErr offset <;> simp only [] <;> try (rintro (h | h) <;> cases h)
      cases env.beginErr offset <;> simp only [] <;> try (rintro (h | h) <;> cases h)
      cases insertPage env _ _ 0 _ <;> simp only [] <;> try (rintro (h | h) <;> cases h)
      cases env.commitErr offset <;> simp only [] <;> rintro (h | h) <;> cases h
      rfl

theorem pageLoop_stderr (env : ListerEnv) (fuel offset : Nat) (s s1 : ListerState)
    (h : pageLoop env fuel offset s = .done s1) : s1.stderr = s.stderr := by
  induction fuel generalizing offset s with
  | zero => simp [pageLoop] at h
  | succ n ih =>
    rw [pageLoop_succ] at h
    cases ht : pageTurn env offset s with
    | stop s2 =>
      simp only [ht, Outcome.done.injEq] at h
      subst h
      exact pageTurn_stderr env offset s s2 (Or.inr ht)
    | fatal m => simp [ht] at h
    | panic m => simp [ht] at h
    | next s2 =>
      simp only [ht] at h
      rw [ih _ _ h]
      exact pageTurn_stderr env offset s s2 (Or.inl ht)

/-- C7 at a page whose second item repeats the ID of the first and whose
third repeats its slug: both inserts are rejected, the first and the fourth
rows are committed and the loop goes on to the offset 12, but nothing is
written to the error stream. -/
theorem rejected_article_row_not_logged :
    execInsertArticle [rowOfServed (mockServed 1 "1" "a")] (rowOfServed (mockServed 1 "1" "b")) =
      .error "UNIQUE constraint failed: articles.ID" ∧
    execInsertArticle [rowOfServed (mockServed 1 "1" "a")] (rowOfServed (mockServed 2 "2" "a")) =
      .error "UNIQUE constraint failed: articles.Slug" ∧
    getArticles clashLister 2 [] =
      .done { table := [rowOfServed (mockServed 1 "1" "a"), rowOfServed (mockServed 3 "3" "c")],
              requests := [0, 12],
              stdout := [listingURL 0, listingURL 12, "2 articles found"],
              stderr := [] } :=
  ⟨rfl, rfl, rfl⟩

/-- C6 at a table holding the slugs b and a, read by the query as a, b,
where the fetch for b fails: the run ends normally after both requests, the
row of a holds the fetched body and the row of b is as before, with BodyHTML
unset. -/
theorem getBodies_completes_witness :
    detailMock.query slugTable = .ok ["a", "b"] ∧
    ["a", "b"].Perm (slugTable.map articleRow.Slug) ∧
    ∃ s, getBodies detailMock slugTable = .done s ∧
      s.stdout = [detailURL "a", detailURL "b"] ∧
      s.table.map (fun r => (r.ID, r.Slug, r.BodyHTML)) =
        [(1, "b", none), (2, "a", some "<p>A</p>")] ∧
      s.stderr.length = 1 := by
  have hperm : ["a", "b"].Perm (slugTable.map articleRow.Slug) := List.Perm.swap "b" "a" []
  obtain ⟨s, hs, hout, _, htable, _, _, herr, _⟩ :=
    getBodies_completes detailMock slugTable ["a", "b"] rfl hperm
  refine ⟨rfl, hperm, s, hs, hout, ?_, ?_⟩
  · rw [htable]
    rfl
  · rw [herr]
    rfl

/-- C2 at the tree 1(2, 3(4)): its four positions are listed in pre-order. -/
theorem flattenComments_preorder_witness :
    ∃ ps : List (List Nat),
      (∀ p, p ∈ ps ↔ (nodeAt scenarioTree p).isSome = true) ∧
      (flattenComments scenarioTree).map some = ps.map (nodeAt scenarioTree) ∧
      (∀ (a b : Nat) (p q : List Nat), ps[a]? = some p → ps[b]? = some (p ++ q) → q ≠ [] →
        a < b) ∧
      (∀ (a b : Nat) (p r s : List Nat) (i j : Nat), ps[a]? = some (p ++ i :: r) →
        ps[b]? = some (p ++ j :: s) → i < j → a < b) :=
  (flattenComments_preorder scenarioTree).1

/-- C8, amended, at the comment 1 with the reply 2: the reply is in the
flattened sequence of its parent. -/
theorem children_columns_and_json_witness :
    node 2 none ∈ elems parentComment.Children ∧ node 2 none ∈ flattenNode parentComment :=
  ⟨List.mem_singleton.2 rfl,
   (children_columns_and_json parentComment none).2.2.2 (node 2 none) (List.mem_singleton.2 rfl)⟩

/-- C1 at the tree 1(2, 3(4)): four entries for four nodes. -/
theorem flattenComments_every_node_once_witness :
    (flattenComments scenarioTree).length = 4 :=
  (flattenComments_every_node_once scenarioTree).1

end AcxScraper
